import Mathlib

/-!
Verification of the AI-response normalization and validation pipeline of the
flashcard repository (src/backend/server.js, two concatenated copies, and
src/worker.js).  Raw model output is modelled as a list of characters; each
JavaScript regular-expression replacement of the repair chain is modelled as a
fuel-indexed scanner over character lists (left-to-right, non-overlapping
matches, resuming after each replacement, exactly as a global regex replace).
JSON.parse is modelled by an executable recursive-descent JSON parser.
-/

/-- Left brace character (written numerically throughout). -/
def lbrace : Char := Char.ofNat 123

/-- Right brace character. -/
def rbrace : Char := Char.ofNat 125

/-- Backtick character, used by the markdown fence regex. -/
def btick : Char := Char.ofNat 96

/-- Single-quote character, used by the single-quoted-value repair. -/
def squote : Char := Char.ofNat 39

/-- Whitespace accepted between tokens by JSON.parse (space, tab, LF, CR). -/
def isJsonWs (c : Char) : Bool := c = ' ' || c = '\t' || c = '\n' || c = '\r'

/-- The regex class backslash-s and String.prototype.trim whitespace
(ASCII fragment plus NBSP; astral/unicode spaces are out of modelled range). -/
def isJsWs (c : Char) : Bool :=
  isJsonWs c || c.toNat = 11 || c.toNat = 12 || c.toNat = 160

/-- The regex class backslash-w: ASCII letters, digits and underscore. -/
def isWordChar (c : Char) : Bool :=
  ('a' ≤ c && c ≤ 'z') || ('A' ≤ c && c ≤ 'Z') || ('0' ≤ c && c ≤ '9') || c = '_'

/-- Characters removed by the control-character strip
`replace(/[\u0000-\u001F\u007F-\u009F]/g, '')`. -/
def isCtlStrip (c : Char) : Bool := c.toNat ≤ 31 || (127 ≤ c.toNat && c.toNat ≤ 159)

/-- Does the second list start with the first (needle, haystack)? -/
def startsWithL : List Char → List Char → Bool
  | [], _ => true
  | _ :: _, [] => false
  | a :: as, b :: bs => a = b && startsWithL as bs

/-- Substring occurrence test, modelling String.prototype.includes. -/
def containsL (needle : List Char) : List Char → Bool
  | [] => startsWithL needle []
  | c :: rest => startsWithL needle (c :: rest) || containsL needle rest

/-- String.prototype.includes. -/
def jsIncludes (hay needle : String) : Bool := containsL needle.data hay.data

/-- Drop trailing characters satisfying p. -/
def rdropWhileL (p : Char → Bool) (l : List Char) : List Char :=
  (l.reverse.dropWhile p).reverse

/-- String.prototype.trim on character lists. -/
def jsTrimL (l : List Char) : List Char := rdropWhileL isJsWs (l.dropWhile isJsWs)

/-- String.prototype.trim. -/
def jsTrim (s : String) : String := String.mk (jsTrimL s.data)

/-- Split a list at the first occurrence of a character:
`splitAtChar t l = some (pre, post)` with `l = pre ++ t :: post` and `t ∉ pre`. -/
def splitAtChar (t : Char) : List Char → Option (List Char × List Char)
  | [] => none
  | c :: rest =>
    if c = t then some ([], rest)
    else (splitAtChar t rest).map (fun p => (c :: p.1, p.2))

/-- Scanner for `replace(/,(\s*[}\]])/g, '$1')` (remove trailing commas before a
closing brace or bracket), fuel-indexed.  On a match the comma is dropped and
scanning resumes after the matched closer; otherwise the scanner advances one
character, as a global regex replace does. -/
def rtcF : Nat → List Char → List Char
  | 0, l => l
  | _ + 1, [] => []
  | f + 1, c :: rest =>
    if c = ',' then
      match rest.dropWhile isJsWs with
      | b :: rest2 =>
        if b = rbrace || b = ']' then rest.takeWhile isJsWs ++ b :: rtcF f rest2
        else ',' :: rtcF f rest
      | [] => ',' :: rtcF f rest
    else c :: rtcF f rest

/-- Remove trailing commas before a closer: `replace(/,(\s*[}\]])/g, '$1')`. -/
def removeTrailingCommas (l : List Char) : List Char := rtcF l.length l

/-- Scanner for `replace(/([{,]\s*)(\w+):/g, '$1"$2":')` (quote bare object
keys that precede a colon), fuel-indexed. -/
def qkF : Nat → List Char → List Char
  | 0, l => l
  | _ + 1, [] => []
  | f + 1, c :: rest =>
    if c = lbrace || c = ',' then
      let ws := rest.takeWhile isJsWs
      let r1 := rest.dropWhile isJsWs
      let w := r1.takeWhile isWordChar
      let r2 := r1.dropWhile isWordChar
      if w = [] then c :: qkF f rest
      else
        match r2 with
        | ':' :: r3 => c :: ws ++ '"' :: (w ++ '"' :: ':' :: qkF f r3)
        | _ => c :: qkF f rest
    else c :: qkF f rest

/-- Quote unquoted object keys: `replace(/([{,]\s*)(\w+):/g, '$1"$2":')`. -/
def quoteBareKeys (l : List Char) : List Char := qkF l.length l

/-- Scanner for `replace(/:\s*'([^']*?)'/g, ': "$1"')` (convert single-quoted
values to double quotes; note the replacement always emits a single space after
the colon), fuel-indexed. -/
def s2dF : Nat → List Char → List Char
  | 0, l => l
  | _ + 1, [] => []
  | f + 1, c :: rest =>
    if c = ':' then
      match rest.dropWhile isJsWs with
      | q :: r2 =>
        if q = squote then
          match splitAtChar squote r2 with
          | some (content, r3) => ':' :: ' ' :: '"' :: (content ++ '"' :: s2dF f r3)
          | none => ':' :: s2dF f rest
        else ':' :: s2dF f rest
      | [] => ':' :: s2dF f rest
    else c :: s2dF f rest

/-- Convert single-quoted string values: `replace(/:\s*'([^']*?)'/g, ': "$1"')`. -/
def singleToDoubleQuotes (l : List Char) : List Char := s2dF l.length l

/-- `replace(/[\u0000-\u001F\u007F-\u009F]/g, '')`: drop control characters. -/
def stripCtl (l : List Char) : List Char := l.filter (fun c => !(isCtlStrip c))

/-- First backend copy: `replace(/\n/g, '\\n')` (raw newline to escape pair). -/
def escRawNl : List Char → List Char
  | [] => []
  | c :: r => if c = '\n' then '\\' :: 'n' :: escRawNl r else c :: escRawNl r

/-- First backend copy: `replace(/\r/g, '\\r')`. -/
def escRawCr : List Char → List Char
  | [] => []
  | c :: r => if c = '\r' then '\\' :: 'r' :: escRawCr r else c :: escRawCr r

/-- First backend copy: `replace(/\t/g, '\\t')`. -/
def escRawTab : List Char → List Char
  | [] => []
  | c :: r => if c = '\t' then '\\' :: 't' :: escRawTab r else c :: escRawTab r

/-- Second backend copy: `replace(/\\n/g, '\\\\n')` (escaped newline pair to a
doubled backslash followed by n). -/
def escEscNl : List Char → List Char
  | [] => []
  | [c] => [c]
  | c :: d :: r =>
    if c = '\\' && d = 'n' then '\\' :: '\\' :: 'n' :: escEscNl r
    else c :: escEscNl (d :: r)

/-- Second backend copy: `replace(/\\r/g, '\\\\r')`. -/
def escEscCr : List Char → List Char
  | [] => []
  | [c] => [c]
  | c :: d :: r =>
    if c = '\\' && d = 'r' then '\\' :: '\\' :: 'r' :: escEscCr r
    else c :: escEscCr (d :: r)

/-- Second backend copy: `replace(/\\t/g, '\\\\t')`. -/
def escEscTab : List Char → List Char
  | [] => []
  | [c] => [c]
  | c :: d :: r =>
    if c = '\\' && d = 't' then '\\' :: '\\' :: 't' :: escEscTab r
    else c :: escEscTab (d :: r)

/-- The four repair steps shared by all three copies of the pipeline:
control-character strip, trailing-comma removal, bare-key quoting,
single-quote-to-double-quote conversion, in source order. -/
def repairBase (l : List Char) : List Char :=
  singleToDoubleQuotes (quoteBareKeys (removeTrailingCommas (stripCtl l)))

/-- The full repair chain of the first backend copy: the shared steps followed
by the three raw-control-character escaping replacements. -/
def repairChain1 (l : List Char) : List Char :=
  escRawTab (escRawCr (escRawNl (repairBase l)))

/-- The full repair chain of the second backend copy: the shared steps followed
by the three double-escaping replacements. -/
def repairChain2 (l : List Char) : List Char :=
  escEscTab (escEscCr (escEscNl (repairBase l)))

/-- Model of the markdown-fence strip
`/^```(\w*)?\s*\n?(.*?)\n?\s*```$/s` with `if (match && match[2])`:
a string both starting and ending in a triple backtick has the fence, the
optional language tag and surrounding whitespace removed; an empty captured
group leaves the string unchanged (match[2] is falsy). -/
def stripFence (l : List Char) : List Char :=
  if startsWithL [btick, btick, btick] l then
    let r := ((l.drop 3).dropWhile isWordChar).dropWhile isJsWs
    if 3 ≤ r.length && decide (r.drop (r.length - 3) = [btick, btick, btick]) then
      let g2 := rdropWhileL isJsWs (r.take (r.length - 3))
      if g2 = [] then l else jsTrimL g2
    else l
  else l

/-- Model of `jsonStr.match(/\[.*\]/s)` followed by `jsonStr = match[0]`:
slice from the first opening bracket to the last closing bracket after it;
if no such pair exists the string is unchanged. -/
def bracketSlice (l : List Char) : List Char :=
  match splitAtChar '[' l with
  | none => l
  | some (_pre, post) =>
    match splitAtChar ']' post.reverse with
    | none => l
    | some (_rpost, rpre) => '[' :: rpre.reverse ++ [']']

/-- The normalization prefix shared by all three copies: trim the raw text,
strip a markdown fence, slice to the bracketed span. -/
def normalizeRaw (raw : String) : List Char :=
  bracketSlice (stripFence (jsTrimL raw.data))

/-- Cleaned candidate JSON text of the first backend copy. -/
def cleanJson1 (raw : String) : List Char := repairChain1 (normalizeRaw raw)

/-- Cleaned candidate JSON text of the second backend copy. -/
def cleanJson2 (raw : String) : List Char := repairChain2 (normalizeRaw raw)

/-- Cleaned candidate JSON text of the worker copy (no escaping steps). -/
def cleanWorker (raw : String) : List Char := repairBase (normalizeRaw raw)

/-- Is the character a hexadecimal digit? -/
def isHexDigitC (c : Char) : Bool :=
  ('0' ≤ c && c ≤ '9') || ('a' ≤ c && c ≤ 'f') || ('A' ≤ c && c ≤ 'F')

/-- Value of a hexadecimal digit character. -/
def hexVal (c : Char) : Nat :=
  if '0' ≤ c && c ≤ '9' then c.toNat - 48
  else if 'a' ≤ c && c ≤ 'f' then c.toNat - 87
  else if 'A' ≤ c && c ≤ 'F' then c.toNat - 55
  else 0

/-- JSON values as produced by JSON.parse (numbers kept as their lexeme, since
the pipeline never performs arithmetic on them). -/
inductive JVal where
  | str (s : String)
  | num (lexeme : String)
  | bool (b : Bool)
  | null
  | arr (xs : List JVal)
  | obj (fields : List (String × JVal))

/-- Translation of a simple (single-character) string escape. -/
def escCharVal (e : Char) : Option Char :=
  if e = '"' then some '"'
  else if e = '\\' then some '\\'
  else if e = '/' then some '/'
  else if e = 'b' then some (Char.ofNat 8)
  else if e = 'f' then some (Char.ofNat 12)
  else if e = 'n' then some '\n'
  else if e = 'r' then some '\r'
  else if e = 't' then some '\t'
  else none

/-- Decode the body of a JSON string literal up to its closing quote,
handling the standard escapes; raw control characters below U+0020 are
rejected, as JSON.parse rejects them.  Returns the decoded characters and the
input following the closing quote. -/
def parseStrBodyF : Nat → List Char → Option (List Char × List Char)
  | 0, _ => none
  | f + 1, l =>
    match l with
    | [] => none
    | c :: r =>
      if c = '"' then some ([], r)
      else if c = '\\' then
        match r with
        | [] => none
        | e :: r1 =>
          match escCharVal e with
          | some d => (parseStrBodyF f r1).map (fun p => (d :: p.1, p.2))
          | none =>
            if e = 'u' then
              match r1 with
              | h1 :: h2 :: h3 :: h4 :: r2 =>
                if isHexDigitC h1 && isHexDigitC h2 && isHexDigitC h3 && isHexDigitC h4 then
                  (parseStrBodyF f r2).map (fun p =>
                    (Char.ofNat (4096 * hexVal h1 + 256 * hexVal h2 + 16 * hexVal h3 + hexVal h4) :: p.1, p.2))
                else none
              | _ => none
            else none
      else if c.toNat < 32 then none
      else (parseStrBodyF f r).map (fun p => (c :: p.1, p.2))

/-- Is the character an ASCII decimal digit? -/
def isDigitC (c : Char) : Bool := '0' ≤ c && c ≤ '9'

/-- Lex the optional fraction and exponent parts of a JSON number. -/
def numFracExp (l : List Char) : List Char × List Char :=
  let (frac, r1) := match l with
    | '.' :: r =>
      let ds := r.takeWhile isDigitC
      if ds = [] then (([] : List Char), l) else ('.' :: ds, r.dropWhile isDigitC)
    | _ => ([], l)
  let (ex, r2) := match r1 with
    | e :: r =>
      if e = 'e' || e = 'E' then
        let (sg, r') := match r with
          | s :: r'' => if s = '+' || s = '-' then ([s], r'') else (([] : List Char), r)
          | [] => ([], r)
        let ds := r'.takeWhile isDigitC
        if ds = [] then (([] : List Char), r1) else (e :: (sg ++ ds), r'.dropWhile isDigitC)
      else ([], r1)
    | [] => ([], r1)
  (frac ++ ex, r2)

/-- Lex a JSON number `-?(0|[1-9][0-9]*)(\.[0-9]+)?([eE][+-]?[0-9]+)?`,
returning the lexeme and the remaining input. -/
def parseNumLex (l : List Char) : Option (List Char × List Char) :=
  let (sign, r1) := match l with
    | '-' :: r => (['-'], r)
    | _ => (([] : List Char), l)
  match r1 with
  | '0' :: r2 => some (sign ++ '0' :: (numFracExp r2).1, (numFracExp r2).2)
  | c :: _ =>
    if isDigitC c && c ≠ '0' then
      let ds := r1.takeWhile isDigitC
      let r2 := r1.dropWhile isDigitC
      some (sign ++ ds ++ (numFracExp r2).1, (numFracExp r2).2)
    else none
  | [] => none

/-- Skip JSON inter-token whitespace. -/
def skipWs (l : List Char) : List Char := l.dropWhile isJsonWs

mutual

/-- Parse one JSON value (fuel-indexed recursive descent modelling JSON.parse). -/
def parseVal : Nat → List Char → Option (JVal × List Char)
  | 0, _ => none
  | f + 1, l =>
    match skipWs l with
    | [] => none
    | c :: r =>
      if c = '"' then
        match parseStrBodyF r.length r with
        | some (s, r') => some (JVal.str (String.mk s), r')
        | none => none
      else if c = '[' then
        match skipWs r with
        | [] => none
        | b :: r' =>
          if b = ']' then some (JVal.arr [], r')
          else
            match parseElems f r with
            | some (xs, r'') => some (JVal.arr xs, r'')
            | none => none
      else if c = lbrace then
        match skipWs r with
        | [] => none
        | b :: r' =>
          if b = rbrace then some (JVal.obj [], r')
          else
            match parseMembers f r with
            | some (ms, r'') => some (JVal.obj ms, r'')
            | none => none
      else if c = 't' then
        match r with
        | 'r' :: 'u' :: 'e' :: r' => some (JVal.bool true, r')
        | _ => none
      else if c = 'f' then
        match r with
        | 'a' :: 'l' :: 's' :: 'e' :: r' => some (JVal.bool false, r')
        | _ => none
      else if c = 'n' then
        match r with
        | 'u' :: 'l' :: 'l' :: r' => some (JVal.null, r')
        | _ => none
      else if c = '-' || isDigitC c then
        match parseNumLex (c :: r) with
        | some (lex, r') => some (JVal.num (String.mk lex), r')
        | none => none
      else none

/-- Parse the elements of a non-empty JSON array after the opening bracket. -/
def parseElems : Nat → List Char → Option (List JVal × List Char)
  | 0, _ => none
  | f + 1, l =>
    match parseVal f l with
    | none => none
    | some (v, r) =>
      match skipWs r with
      | [] => none
      | c :: r' =>
        if c = ',' then
          match parseElems f r' with
          | some (vs, r'') => some (v :: vs, r'')
          | none => none
        else if c = ']' then some ([v], r')
        else none

/-- Parse the members of a non-empty JSON object after the opening brace. -/
def parseMembers : Nat → List Char → Option (List (String × JVal) × List Char)
  | 0, _ => none
  | f + 1, l =>
    match skipWs l with
    | [] => none
    | c :: r =>
      if c = '"' then
        match parseStrBodyF r.length r with
        | none => none
        | some (k, r1) =>
          match skipWs r1 with
          | [] => none
          | c2 :: r2 =>
            if c2 = ':' then
              match parseVal f r2 with
              | none => none
              | some (v, r3) =>
                match skipWs r3 with
                | [] => none
                | c3 :: r4 =>
                  if c3 = ',' then
                    match parseMembers f r4 with
                    | some (ms, r5) => some ((String.mk k, v) :: ms, r5)
                    | none => none
                  else if c3 = rbrace then some ([(String.mk k, v)], r4)
                  else none
            else none
      else none

end

/-- JSON.parse: parse a complete value, allowing surrounding whitespace and
rejecting trailing input. -/
def jsParseL (l : List Char) : Option JVal :=
  match parseVal (2 * l.length + 2) l with
  | some (v, rest) => if skipWs rest = [] then some v else none
  | none => none

/-- JSON.parse on strings. -/
def jsParse (s : String) : Option JVal := jsParseL s.data

/-- A flashcard as returned by the endpoints. -/
structure Card where
  term : String
  definition : String
deriving DecidableEq, Repr

/-- Look up a field of a parsed JSON object.  JavaScript object literals with
duplicate keys keep the last occurrence, hence the reversed search. -/
def lookupField (fields : List (String × JVal)) (k : String) : Option JVal :=
  (fields.reverse.find? (fun p => p.1 = k)).map (fun p => p.2)

/-- The validity filter applied to each parsed item:
`item && typeof item === 'object' && typeof item.term === 'string' &&
typeof item.definition === 'string' && item.term.trim().length > 0 &&
item.definition.trim().length > 0`.  Arrays have typeof object but no term or
definition property; null is excluded by the truthiness test. -/
def isValidCard : JVal → Bool
  | JVal.obj fields =>
    match lookupField fields "term", lookupField fields "definition" with
    | some (JVal.str t), some (JVal.str d) =>
      decide ((jsTrimL t.data) ≠ []) && decide ((jsTrimL d.data) ≠ [])
    | _, _ => false
  | _ => false

/-- Read the term and definition fields of a validated item. -/
def toCard (v : JVal) : Card :=
  match v with
  | JVal.obj fields =>
    { term := match lookupField fields "term" with
        | some (JVal.str t) => t
        | _ => ""
      definition := match lookupField fields "definition" with
        | some (JVal.str d) => d
        | _ => "" }
  | _ => { term := "", definition := "" }

/-- `card.term.trim().substring(0, 500).replace(/[<>]/g, '')` and its
definition analogue: trim, hard-truncate, strip angle brackets. -/
def sanitizeField (maxLen : Nat) (s : String) : String :=
  String.mk (((jsTrimL s.data).take maxLen).filter (fun c => !(c = '<' || c = '>')))

/-- Sanitization of one accepted card (term capped at 500, definition at 2000). -/
def sanitizeCard (c : Card) : Card :=
  { term := sanitizeField 500 c.term, definition := sanitizeField 2000 c.definition }

/-- One step of the regex-fallback scan: try to match
`"term"\s*:\s*"([^"]*?)"\s*,\s*"definition"\s*:\s*"([^"]*?)"` at the head of
the input, returning the two captured contents and the input after the match. -/
def matchTermDef (l : List Char) : Option (String × String × List Char) :=
  match l with
  | '"' :: 't' :: 'e' :: 'r' :: 'm' :: '"' :: r0 =>
    (match (r0.dropWhile isJsWs) with
     | ':' :: r2 =>
       (match (r2.dropWhile isJsWs) with
        | '"' :: r4 =>
          (match splitAtChar '"' r4 with
           | some (t, r5) =>
             (match (r5.dropWhile isJsWs) with
              | ',' :: r7 =>
                (match (r7.dropWhile isJsWs) with
                 | '"' :: 'd' :: 'e' :: 'f' :: 'i' :: 'n' :: 'i' :: 't' :: 'i' :: 'o' :: 'n' :: '"' :: r8 =>
                   (match (r8.dropWhile isJsWs) with
                    | ':' :: r10 =>
                      (match (r10.dropWhile isJsWs) with
                       | '"' :: r12 =>
                         (match splitAtChar '"' r12 with
                          | some (d, r13) => some (String.mk t, String.mk d, r13)
                          | none => none)
                       | _ => none)
                    | _ => none)
                 | _ => none)
              | _ => none)
           | none => none)
        | _ => none)
     | _ => none)
  | _ => none

/-- Global scan of the fallback pattern: collect non-overlapping matches left to
right, advancing one character where no match starts (the per-match re-extraction
of term and definition in the source always recovers exactly the captured
groups, so the map over matches is modelled directly). -/
def fbScanF : Nat → List Char → List (String × String)
  | 0, _ => []
  | _ + 1, [] => []
  | f + 1, c :: rest =>
    match matchTermDef (c :: rest) with
    | some (t, d, rest') => (t, d) :: fbScanF f rest'
    | none => fbScanF f rest

/-- `jsonStr.match(/"term"\s*:\s*"([^"]*?)"\s*,\s*"definition"\s*:\s*"([^"]*?)"/g)`
followed by per-match extraction of the two fields. -/
def fallbackExtract (l : List Char) : List (String × String) := fbScanF l.length l

/-- The object built for one fallback match. -/
def pairToObj (p : String × String) : JVal :=
  JVal.obj [("term", JVal.str p.1), ("definition", JVal.str p.2)]

/-- Error message thrown when both strict parse and the fallback fail
(the dynamic parse-error detail is irrelevant to the status mapping). -/
def parseFailMsg1 : String := "Failed to parse AI response as JSON: unexpected token"

/-- Error message thrown when the parsed value is not an array. -/
def notArrayMsg : String := "AI response is not an array"

/-- Error message thrown when no parsed item passes the validity filter. -/
def noValidMsg : String := "No valid flashcards found in AI response"

/-- Worker error message on strict-parse failure (the worker has no fallback). -/
def parseFailMsgW : String := "Failed to parse AI response"

/-- Parse stage of the first backend copy: strict parse, then the regex
fallback, then the Array.isArray check. -/
def coerce1 (raw : String) : Except String (List JVal) :=
  let c := cleanJson1 raw
  match jsParseL c with
  | some (JVal.arr vs) => Except.ok vs
  | some _ => Except.error notArrayMsg
  | none =>
    match fallbackExtract c with
    | [] => Except.error parseFailMsg1
    | items => Except.ok (items.map pairToObj)

/-- Parse stage of the second backend copy (same fallback, different cleaning). -/
def coerce2 (raw : String) : Except String (List JVal) :=
  let c := cleanJson2 raw
  match jsParseL c with
  | some (JVal.arr vs) => Except.ok vs
  | some _ => Except.error notArrayMsg
  | none =>
    match fallbackExtract c with
    | [] => Except.error parseFailMsg1
    | items => Except.ok (items.map pairToObj)

/-- Parse stage of the worker: strict parse only, no fallback. -/
def coerceW (raw : String) : Except String (List JVal) :=
  let c := cleanWorker raw
  match jsParseL c with
  | some (JVal.arr vs) => Except.ok vs
  | some _ => Except.error notArrayMsg
  | none => Except.error parseFailMsgW

/-- Full normalize, parse and validate pipeline of the first backend copy,
returning the sanitized cards or the thrown error message. -/
def pipeline1 (raw : String) (count : Nat) : Except String (List Card) :=
  match coerce1 raw with
  | Except.error e => Except.error e
  | Except.ok vs =>
    let validCards := vs.filter isValidCard
    if validCards.isEmpty then Except.error noValidMsg
    else Except.ok ((validCards.take count).map (fun v => sanitizeCard (toCard v)))

/-- User-facing message for the 503 branch. -/
def svcUnavailableMsg : String :=
  "AI service temporarily unavailable. Please try again later."

/-- User-facing message for the invalid-AI-response branch. -/
def invalidRespMsg : String :=
  "The AI generated an invalid response. Please try rephrasing your input or try again."

/-- User-facing message for the no-valid-flashcards branch. -/
def noValidRespMsg : String :=
  "Unable to generate valid flashcards from this content. Please try providing more detailed or educational content."

/-- User-facing message for the default branch. -/
def unexpectedMsg : String := "An unexpected error occurred. Please try again."

/-- Error-to-status mapping of the first backend copy's catch block. -/
def mapErrMsg1 (m : String) : Nat × String :=
  if jsIncludes m "API" then (503, svcUnavailableMsg)
  else if jsIncludes m "JSON" || jsIncludes m "parse" then (500, invalidRespMsg)
  else if jsIncludes m "No valid flashcards" then (400, noValidRespMsg)
  else (500, unexpectedMsg)

/-- Error-to-status mapping of the second backend copy's catch block
(which additionally routes quota errors to 503). -/
def mapErrMsg2 (m : String) : Nat × String :=
  if jsIncludes m "API" || jsIncludes m "quota" then (503, svcUnavailableMsg)
  else if jsIncludes m "JSON" || jsIncludes m "parse" then (500, invalidRespMsg)
  else if jsIncludes m "No valid flashcards" then (400, noValidRespMsg)
  else (500, unexpectedMsg)

/-- Error-to-status mapping of the worker's catch block. -/
def mapErrMsgW (m : String) : Nat × String :=
  if jsIncludes m "AI service" then (503, svcUnavailableMsg)
  else if jsIncludes m "JSON" || jsIncludes m "parse" then (500, invalidRespMsg)
  else if jsIncludes m "No valid flashcards" then (400, noValidRespMsg)
  else (500, unexpectedMsg)

/-- HTTP behaviour of the first backend copy: run the pipeline and map any
thrown message to a status code and response body. -/
def handler1 (raw : String) (count : Nat) : Except (Nat × String) (List Card) :=
  match pipeline1 raw count with
  | Except.ok cards => Except.ok cards
  | Except.error m => Except.error (mapErrMsg1 m)

/-- The fixed expert-vocabulary list shared by the second backend copy and the
worker. -/
def expertKeywords : List String :=
  ["advanced", "sophisticated", "complex", "specialized", "technical", "methodology",
   "parameter", "protocol", "algorithm", "optimization", "coefficient", "analysis",
   "synthesis", "implementation", "configuration", "calibration", "specification",
   "framework", "architecture", "paradigm", "mechanism", "phenomenon", "theoretical",
   "quantum", "differential", "molecular", "computational", "neural", "cryptographic",
   "stochastic", "multivariate", "probabilistic", "algorithmic", "thermodynamic"]

/-- The fixed banned-simple-vocabulary list. -/
def bannedSimpleTerms : List String :=
  ["basic", "simple", "easy", "introduction to", "beginner", "fundamental",
   "overview", "elementary", "starting", "first step", "learn about"]

/-- ASCII lowercasing, modelling toLowerCase on the modelled character range. -/
def jsToLower (s : String) : String := String.mk (s.data.map Char.toLower)

/-- The combined lowercased text used by the expert-policy check:
`(card.term + ' ' + card.definition).toLowerCase()`. -/
def combinedText (c : Card) : String :=
  jsToLower (c.term ++ " " ++ c.definition)

/-- Per-item expert-policy check: no banned simple term occurs in the combined
text, at least two members of the expert list occur, and the definition is
longer than 150 characters. -/
def isExpertCard (c : Card) : Bool :=
  let combined := combinedText c
  let hasSimpleTerms := bannedSimpleTerms.any (fun t => jsIncludes combined t)
  if hasSimpleTerms then false
  else
    decide (2 ≤ (expertKeywords.filter (fun k => jsIncludes combined k)).length)
      && decide (150 < c.definition.length)

/-- Whole-set expert-policy check: every card must pass. -/
def isExpertContent (cards : List Card) : Bool := cards.all isExpertCard

/-- Outcome of the single regeneration request: the call throws (or, in the
worker, returns a non-ok HTTP status), or yields a raw response text. -/
inductive RegenResult where
  | fail
  | ok (text : String)

/-- Worker processing of the regeneration response: trim, clean with the worker
chain, strict-parse (a parse failure is caught and discarded), and accept only
a non-empty array with at least one valid item. -/
def workerProcessRegen : RegenResult → Option (List Card)
  | RegenResult.fail => none
  | RegenResult.ok text =>
    let t := jsTrimL text.data
    if t.isEmpty then none
    else
      match jsParseL (repairBase (bracketSlice (stripFence t))) with
      | some (JVal.arr vs) =>
        if vs.isEmpty then none
        else
          let valid := vs.filter isValidCard
          if valid.isEmpty then none else some (valid.map toCard)
      | some _ => none
      | none => none

/-- Worker expert stage: if the sliced card set fails the policy, make exactly
one regeneration call and, when its output is structurally valid with at least
one valid item, replace the card set; otherwise keep the original. -/
def workerExpertStage (level : String) (cards : List Card) (regen : RegenResult)
    (count : Nat) : List Card × Nat :=
  if level = "expert" && !(isExpertContent cards) then
    match workerProcessRegen regen with
    | some newCards => (newCards.take count, 1)
    | none => (cards, 1)
  else (cards, 0)

/-- Worker request flow after boundary validation: parse (no fallback),
validate, slice, expert stage, sanitize; the second component counts
regeneration calls. -/
def workerHandler (raw : String) (regen : RegenResult) (count : Nat)
    (level : String) : Except (Nat × String) (List Card) × Nat :=
  match coerceW raw with
  | Except.error e => (Except.error (mapErrMsgW e), 0)
  | Except.ok vs =>
    let validCards := vs.filter isValidCard
    if validCards.isEmpty then (Except.error (mapErrMsgW noValidMsg), 0)
    else
      let finalCards0 := (validCards.take count).map toCard
      let staged := workerExpertStage level finalCards0 regen count
      (Except.ok (staged.1.map sanitizeCard), staged.2)

/-- Second backend copy's processing of the regeneration response: clean with
the second-copy chain and strict-parse (no fallback inside the retry branch); a
non-array or empty-array result, or a caught parse error, yields nothing. -/
def backend2ProcessRegen : RegenResult → Option (List JVal)
  | RegenResult.fail => none
  | RegenResult.ok text =>
    match jsParseL (repairChain2 (bracketSlice (stripFence (jsTrimL text.data)))) with
    | some (JVal.arr vs) => if vs.isEmpty then none else some vs
    | some _ => none
    | none => none

/-- Second backend copy's request flow after boundary validation.  When the
expert policy fails, one regeneration call is made and its parsed result is
assigned to parsedData — but, exactly as in the source, the returned cards are
built from the validCards of the original response, so the reassignment is
dead.  The second component counts regeneration calls. -/
def backend2Handler (raw : String) (regen : RegenResult) (count : Nat)
    (level : String) : Except (Nat × String) (List Card) × Nat :=
  match coerce2 raw with
  | Except.error e => (Except.error (mapErrMsg2 e), 0)
  | Except.ok vs =>
    let validCards := vs.filter isValidCard
    if validCards.isEmpty then (Except.error (mapErrMsg2 noValidMsg), 0)
    else
      let needRegen := level = "expert" && !(isExpertContent (validCards.map toCard))
      let _parsedDataAfterRegen : Option (List JVal) :=
        if needRegen then backend2ProcessRegen regen else none
      let regenCalls := if needRegen then 1 else 0
      (Except.ok ((validCards.take count).map (fun v => sanitizeCard (toCard v))),
       regenCalls)

/-- JavaScript values a request-body field may hold, as far as the validation
middleware distinguishes them (objects, arrays and booleans are only tested for
type and truthiness, so they are collapsed into constructors). -/
inductive JSVal where
  | undef
  | nul
  | bool (b : Bool)
  | str (s : String)
  | num (q : Rat)
  | obj
deriving DecidableEq

/-- The request body read by the validation middleware. -/
structure Body where
  context : JSVal
  language : JSVal
  count : JSVal
  level : JSVal
deriving DecidableEq

/-- The twelve supported language codes. -/
def supportedLanguages : List String :=
  ["en", "fr", "es", "de", "it", "pt", "ru", "ja", "ko", "zh", "ar", "hi"]

/-- The four supported difficulty levels. -/
def supportedLevels : List String :=
  ["beginner", "intermediate", "advanced", "expert"]

/-- Membership in a string list (Array.prototype.includes). -/
def memberStr (xs : List String) (s : String) : Bool := xs.any (fun x => x = s)

/-- The validateInput middleware of the second backend copy: each failed check
answers 400 with its message and stops; on success control passes on.  The
checks, in source order: context present, a string, at most 50000 characters,
at least 3 after trimming; language present, a string, one of the 12 codes;
count truthy, a number, between 5 and 20; level present, a string, one of the
4 enum values. -/
def validateInput (b : Body) : Option (Nat × String) :=
  match b.context with
  | JSVal.str s =>
    if s.data.isEmpty then some (400, "Invalid context provided")
    else if 50000 < s.length then
      some (400, "Context too long. Please limit to 50,000 characters.")
    else if (jsTrimL s.data).length < 3 then
      some (400, "Context too short. Please provide more detailed content.")
    else
      match b.language with
      | JSVal.str lang =>
        if lang.data.isEmpty then some (400, "Invalid language provided")
        else if !(memberStr supportedLanguages lang) then
          some (400, "Unsupported language. Please choose from supported languages.")
        else
          match b.count with
          | JSVal.num q =>
            if q = 0 || q < 5 || 20 < q then
              some (400, "Invalid count. Please choose between 5 and 20 flashcards.")
            else
              match b.level with
              | JSVal.str lv =>
                if lv.data.isEmpty then some (400, "Invalid difficulty level provided")
                else if !(memberStr supportedLevels lv) then
                  some (400, "Invalid difficulty level. Please choose from: beginner, intermediate, advanced, expert.")
                else none
              | _ => some (400, "Invalid difficulty level provided")
          | _ => some (400, "Invalid count. Please choose between 5 and 20 flashcards.")
      | _ => some (400, "Invalid language provided")
  | _ => some (400, "Invalid context provided")

/-- JavaScript ToInteger conversion used by Array.prototype.slice when count is
a non-integral number: truncation toward zero (our modelled counts are
non-negative, so floor). -/
def countToNat (v : JSVal) : Nat :=
  match v with
  | JSVal.num q => q.floor.toNat
  | _ => 0

/-- The level string of a body (empty if not a string). -/
def levelOf (v : JSVal) : String :=
  match v with
  | JSVal.str s => s
  | _ => ""

/-- The full second-copy endpoint: run the validation middleware, and only if
it passes hand the model output to the generation pipeline.  A validation
failure is returned unchanged, whatever the model would answer. -/
def handlerFull (b : Body) (raw : String) (regen : RegenResult) :
    Except (Nat × String) (List Card) :=
  match validateInput b with
  | some e => Except.error e
  | none => (backend2Handler raw regen (countToNat b.count) (levelOf b.level)).1

/-- The spec-side statement of the boundary-validation acceptance condition
(context a string of at most 50000 characters with at least 3 after trimming,
language among the 12 codes, count a number between 5 and 20, level among the
4 enum values), used to compare validateInput against the claim. -/
def ValidRequest (b : Body) : Prop :=
  (∃ s, b.context = JSVal.str s ∧ s.length ≤ 50000 ∧ 3 ≤ (jsTrimL s.data).length)
  ∧ (∃ lang, b.language = JSVal.str lang ∧ lang ∈ supportedLanguages)
  ∧ (∃ q, b.count = JSVal.num q ∧ 5 ≤ q ∧ q ≤ 20)
  ∧ (∃ lv, b.level = JSVal.str lv ∧ lv ∈ supportedLevels)

/-- The parsed JSON object corresponding to a card. -/
def jObj (i : Card) : JVal :=
  JVal.obj [("term", JVal.str i.term), ("definition", JVal.str i.definition)]

/-- Opening characters of a canonically serialized card object, up to the term
value. -/
def itemPre : List Char := [lbrace, '"', 't', 'e', 'r', 'm', '"', ':', '"']

/-- Characters between the term value and the definition value. -/
def itemMid : List Char :=
  ['"', ',', '"', 'd', 'e', 'f', 'i', 'n', 'i', 't', 'i', 'o', 'n', '"', ':', '"']

/-- Closing characters of a canonically serialized card object. -/
def itemSuf : List Char := ['"', rbrace]

/-- Canonical serialization of one card object. -/
def serItem (i : Card) : List Char :=
  itemPre ++ i.term.data ++ itemMid ++ i.definition.data ++ itemSuf

/-- Canonical serialization of the comma-separated array body. -/
def serBody : List Card → List Char
  | [] => []
  | [i] => serItem i
  | i :: rest => serItem i ++ ',' :: serBody rest

/-- Canonical JSON serialization of a card list (JSON.stringify shape). -/
def serItems (items : List Card) : List Char := '[' :: (serBody items ++ [']'])

/-- Canonical JSON serialization as a string. -/
def serializeItems (items : List Card) : String := String.mk (serItems items)

/-- Field characters that cannot interact with any repair rule, the JSON
structure, or sanitization: printable, not in the stripped control ranges, and
none of quote, backslash, comma, colon, single quote, braces, brackets, angle
brackets. -/
def goodChar (c : Char) : Bool :=
  32 ≤ c.toNat && !(127 ≤ c.toNat && c.toNat ≤ 159) &&
  !(c = '"' || c = '\\' || c = ',' || c = ':' || c = squote || c = lbrace ||
    c = rbrace || c = '[' || c = ']' || c = '<' || c = '>')

/-- A field that passes through the pipeline untouched: non-empty, within the
length cap, fixed by trimming, and made of good characters. -/
def GoodField (s : String) (maxLen : Nat) : Prop :=
  s.data ≠ [] ∧ s.length ≤ maxLen ∧ jsTrimL s.data = s.data ∧
    ∀ c ∈ s.data, goodChar c = true

/-- A card whose fields pass through the pipeline untouched. -/
def GoodCard (i : Card) : Prop := GoodField i.term 500 ∧ GoodField i.definition 2000

/-- Pair scanner: every character satisfying trig is immediately followed by a
character satisfying ok (the option argument is the lookahead character after
the end of the list). -/
def followOk (trig ok : Char → Bool) : List Char → Option Char → Bool
  | [], _ => true
  | c :: r, nxt =>
    (if trig c then
      match r with
      | d :: _ => ok d
      | [] =>
        match nxt with
        | some d => ok d
        | none => false
     else true)
    && followOk trig ok r nxt

/-- Characters that start a trailing-comma match attempt. -/
def isCommaTrig (c : Char) : Bool := c = ','

/-- Characters that start a bare-key match attempt. -/
def isSepTrig (c : Char) : Bool := c = lbrace || c = ','

/-- Characters after a separator that block both the trailing-comma and the
bare-key rules (non-whitespace, non-closer, non-word). -/
def isOkAfterSep (c : Char) : Bool := c = '"' || c = lbrace

/-- Characters that start a single-quoted-value match attempt. -/
def isColonTrig (c : Char) : Bool := c = ':'

/-- Characters after a colon that block the single-quote rule. -/
def isOkAfterColon (c : Char) : Bool := c = '"'

/-- Concrete input: well-formed array with a trailing comma. -/
def rawTrailingComma : String := "[\x7b\"term\": \"A\", \"definition\": \"B\"\x7d,]"

/-- Concrete input: single-quoted keys and values. -/
def rawMixedQuotes : String := "[\x7b\x27term\x27: \x27A\x27, \x27definition\x27: \x27B\x27\x7d]"

/-- Concrete input: valid JSON whose definition contains a comma directly
before a closing brace. -/
def rawCommaBrace : String := "[\x7b\"term\":\"A\",\"definition\":\"B,\x7d\"\x7d]"

/-- Concrete input: valid JSON whose term consists only of angle brackets. -/
def rawAngleTerm : String := "[\x7b\"term\":\"<>\",\"definition\":\"D\"\x7d]"

/-- Concrete input: parsed array whose only element misses definition. -/
def rawMissingDef : String := "[\x7b\"term\":\"A\"\x7d]"

/-- Concrete input: unterminated array that strict parsing rejects but the
fallback pattern matches. -/
def rawUnclosed : String := "[\x7b\"term\": \"A\", \"definition\": \"B\","

/-- Concrete input: first model response of the expert scenario (fails the
difficulty policy because of the banned words). -/
def rawSimpleExpert : String := "[\x7b\"term\":\"Basic\",\"definition\":\"simple\"\x7d]"

/-- Concrete input: regenerated model response of the expert scenario
(structurally valid, parses to one valid item). -/
def rawRegenExpert : String := "[\x7b\"term\":\"Quantum\",\"definition\":\"deep\"\x7d]"

/-- A definition longer than 150 characters containing two expert keywords. -/
def longExpertDef : String := "stochastic quantum " ++ String.mk (List.replicate 140 'x')

/-- A card that satisfies the expert difficulty policy. -/
def expertCardOk : Card := { term := "Advanced topic", definition := longExpertDef }

/-- Request body with a non-integral count, used against claim C8. -/
def bodyHalfCount : Body :=
  { context := JSVal.str "hello world", language := JSVal.str "en",
    count := JSVal.num (mkRat 15 2), level := JSVal.str "expert" }

/-- Request body with an unsupported language code. -/
def bodyBadLang : Body :=
  { context := JSVal.str "hello world", language := JSVal.str "xx",
    count := JSVal.num 10, level := JSVal.str "expert" }

/-- Concrete input: three valid items, used to exercise the truncation bound. -/
def rawThreeItems : String :=
  "[\x7b\"term\":\"T1\",\"definition\":\"D1\"\x7d,\x7b\"term\":\"T2\",\"definition\":\"D2\"\x7d,\x7b\"term\":\"T3\",\"definition\":\"D3\"\x7d]"

/-- Concrete input: prose with no array structure and no fallback matches. -/
def rawProse : String := "hello"

/-- The specification-side per-item expert criterion, stated directly from the
spec sentence: no banned simple-vocabulary member occurs in the combined
lowercased text, at least two distinct expert-vocabulary members occur, and
the definition exceeds 150 characters. -/
def SpecExpertItem (c : Card) : Prop :=
  (∀ b ∈ bannedSimpleTerms, ¬ jsIncludes (combinedText c) b = true)
  ∧ 2 ≤ (expertKeywords.filter (fun k => jsIncludes (combinedText c) k)).length
  ∧ 150 < c.definition.length

lemma rtcF_cons (f : Nat) (x : Char) (rest : List Char) :
    rtcF (f + 1) (x :: rest) =
      if x = ',' then
        match rest.dropWhile isJsWs with
        | b :: rest2 =>
          if b = rbrace || b = ']' then rest.takeWhile isJsWs ++ b :: rtcF f rest2
          else ',' :: rtcF f rest
        | [] => ',' :: rtcF f rest
      else x :: rtcF f rest := rfl

lemma splitAtChar_eq {t : Char} :
    ∀ {l a b : List Char}, splitAtChar t l = some (a, b) → l = a ++ t :: b := by
  intro l
  induction l with
  | nil => intro a b h; simp [splitAtChar] at h
  | cons c rest ih =>
    intro a b h
    by_cases hc : c = t
    · subst hc
      simp only [splitAtChar, if_pos rfl, Option.some.injEq, Prod.mk.injEq] at h
      rcases h with ⟨rfl, rfl⟩
      simp
    · simp only [splitAtChar, if_neg hc, Option.map_eq_some'] at h
      obtain ⟨⟨a2, b2⟩, hsplit, heq⟩ := h
      simp only [Prod.mk.injEq] at heq
      rcases heq with ⟨rfl, rfl⟩
      simp [ih hsplit]

lemma rtcF_pres (p : Char → Bool) :
    ∀ (f : Nat) (l : List Char), (∀ c ∈ l, p c = true) → ∀ c ∈ rtcF f l, p c = true := by
  intro f
  induction f with
  | zero => intro l h c hc; exact h c (by simpa [rtcF] using hc)
  | succ f ih =>
    intro l h c hc
    cases l with
    | nil => simp [rtcF] at hc
    | cons x rest =>
      have hrest : ∀ c ∈ rest, p c = true := fun c hc => h c (List.mem_cons_of_mem _ hc)
      rw [rtcF_cons] at hc
      by_cases hx : x = ','
      · rw [if_pos hx] at hc
        cases hdw : rest.dropWhile isJsWs with
        | nil =>
          rw [hdw] at hc
          dsimp only at hc
          rcases List.mem_cons.mp hc with h1 | h1
          · exact h c (by simp [h1, hx])
          · exact ih rest hrest c h1
        | cons b rest2 =>
          rw [hdw] at hc
          dsimp only at hc
          have hsub : ∀ c ∈ b :: rest2, p c = true := by
            intro c hc2
            exact hrest c ((List.dropWhile_sublist isJsWs).subset (hdw ▸ hc2))
          by_cases hb : b = rbrace || b = ']'
          · rw [if_pos hb] at hc
            rcases List.mem_append.mp hc with h1 | h1
            · exact hrest c ((List.takeWhile_sublist isJsWs).subset h1)
            · rcases List.mem_cons.mp h1 with h2 | h2
              · exact hsub c (by simp [h2])
              · exact ih rest2 (fun c hc2 => hsub c (List.mem_cons_of_mem _ hc2)) c h2
          · rw [if_neg hb] at hc
            rcases List.mem_cons.mp hc with h1 | h1
            · exact h c (by simp [h1, hx])
            · exact ih rest hrest c h1
      · rw [if_neg hx] at hc
        rcases List.mem_cons.mp hc with h1 | h1
        · exact h c (by simp [h1])
        · exact ih rest hrest c h1

lemma qkF_cons (f : Nat) (x : Char) (rest : List Char) :
    qkF (f + 1) (x :: rest) =
      if x = lbrace || x = ',' then
        if rest.dropWhile isJsWs |>.takeWhile isWordChar |>.isEmpty then x :: qkF f rest
        else
          match (rest.dropWhile isJsWs).dropWhile isWordChar with
          | ':' :: r3 =>
            x :: rest.takeWhile isJsWs ++ '"' ::
              (((rest.dropWhile isJsWs).takeWhile isWordChar) ++ '"' :: ':' :: qkF f r3)
          | _ => x :: qkF f rest
      else x :: qkF f rest := by
  rw [qkF]
  by_cases hx : x = lbrace || x = ','
  · rw [if_pos hx, if_pos hx]
    by_cases hw : (rest.dropWhile isJsWs).takeWhile isWordChar = []
    · rw [if_pos hw]
      simp [hw]
    · rw [if_neg hw]
      simp [List.isEmpty_iff, hw]
  · rw [if_neg hx, if_neg hx]

lemma qkF_pres (p : Char → Bool) (hq : p '"' = true) :
    ∀ (f : Nat) (l : List Char), (∀ c ∈ l, p c = true) → ∀ c ∈ qkF f l, p c = true := by
  intro f
  induction f with
  | zero => intro l h c hc; exact h c (by simpa [qkF] using hc)
  | succ f ih =>
    intro l h c hc
    cases l with
    | nil => simp [qkF] at hc
    | cons x rest =>
      have hrest : ∀ c ∈ rest, p c = true := fun c hc => h c (List.mem_cons_of_mem _ hc)
      have hr1 : ∀ c ∈ rest.dropWhile isJsWs, p c = true :=
        fun c hc => hrest c ((List.dropWhile_sublist isJsWs).subset hc)
      rw [qkF_cons] at hc
      by_cases hx : x = lbrace || x = ','
      · rw [if_pos hx] at hc
        by_cases hw : ((rest.dropWhile isJsWs).takeWhile isWordChar).isEmpty
        · rw [if_pos hw] at hc
          rcases List.mem_cons.mp hc with h1 | h1
          · exact h c (by simp [h1])
          · exact ih rest hrest c h1
        · rw [if_neg hw] at hc
          split at hc
          next r3 heq =>
            have hr3 : ∀ c ∈ r3, p c = true := by
              intro c hc2
              exact hr1 c ((List.dropWhile_sublist isWordChar).subset
                (heq ▸ List.mem_cons_of_mem _ hc2))
            have hcolon : p ':' = true :=
              hr1 ':' ((List.dropWhile_sublist isWordChar).subset (heq ▸ List.mem_cons_self _ _))
            rcases List.mem_cons.mp hc with h1 | h1
            · exact h c (by simp [h1])
            · rcases List.mem_append.mp h1 with h2 | h2
              · exact hrest c ((List.takeWhile_sublist isJsWs).subset h2)
              · rcases List.mem_cons.mp h2 with h3 | h3
                · exact h3 ▸ hq
                · rcases List.mem_append.mp h3 with h4 | h4
                  · exact hr1 c ((List.takeWhile_sublist isWordChar).subset h4)
                  · rcases List.mem_cons.mp h4 with h5 | h5
                    · exact h5 ▸ hq
                    · rcases List.mem_cons.mp h5 with h6 | h6
                      · exact h6 ▸ hcolon
                      · exact ih r3 hr3 c h6
          next hne =>
            rcases List.mem_cons.mp hc with h1 | h1
            · exact h c (by simp [h1])
            · exact ih rest hrest c h1
      · rw [if_neg hx] at hc
        rcases List.mem_cons.mp hc with h1 | h1
        · exact h c (by simp [h1])
        · exact ih rest hrest c h1

lemma s2dF_cons (f : Nat) (x : Char) (rest : List Char) :
    s2dF (f + 1) (x :: rest) =
      if x = ':' then
        match rest.dropWhile isJsWs with
        | q :: r2 =>
          if q = squote then
            match splitAtChar squote r2 with
            | some (content, r3) => ':' :: ' ' :: '"' :: (content ++ '"' :: s2dF f r3)
            | none => ':' :: s2dF f rest
          else ':' :: s2dF f rest
        | [] => ':' :: s2dF f rest
      else x :: s2dF f rest := rfl

lemma s2dF_pres (p : Char → Bool) (hq : p '"' = true) (hsp : p ' ' = true) :
    ∀ (f : Nat) (l : List Char), (∀ c ∈ l, p c = true) → ∀ c ∈ s2dF f l, p c = true := by
  intro f
  induction f with
  | zero => intro l h c hc; exact h c (by simpa [s2dF] using hc)
  | succ f ih =>
    intro l h c hc
    cases l with
    | nil => simp [s2dF] at hc
    | cons x rest =>
      have hrest : ∀ c ∈ rest, p c = true := fun c hc => h c (List.mem_cons_of_mem _ hc)
      have hr1 : ∀ c ∈ rest.dropWhile isJsWs, p c = true :=
        fun c hc => hrest c ((List.dropWhile_sublist isJsWs).subset hc)
      rw [s2dF_cons] at hc
      by_cases hx : x = ':'
      · rw [if_pos hx] at hc
        split at hc
        next q r2 heq =>
          have hq2 : ∀ c ∈ q :: r2, p c = true := fun c hc2 => hr1 c (heq ▸ hc2)
          by_cases hqq : q = squote
          · rw [if_pos hqq] at hc
            split at hc
            next content r3 hsplit =>
              have hr2eq : r2 = content ++ squote :: r3 := splitAtChar_eq hsplit
              have hcontent : ∀ c ∈ content, p c = true := by
                intro c hc2
                exact hq2 c (List.mem_cons_of_mem _ (hr2eq ▸ List.mem_append_left _ hc2))
              have hr3 : ∀ c ∈ r3, p c = true := by
                intro c hc2
                exact hq2 c (List.mem_cons_of_mem _
                  (hr2eq ▸ List.mem_append_right _ (List.mem_cons_of_mem _ hc2)))
              have hcolon : p ':' = true := hx ▸ h x (List.mem_cons_self _ _)
              rcases List.mem_cons.mp hc with h1 | h1
              · exact h1 ▸ hcolon
              · rcases List.mem_cons.mp h1 with h2 | h2
                · exact h2 ▸ hsp
                · rcases List.mem_cons.mp h2 with h3 | h3
                  · exact h3 ▸ hq
                  · rcases List.mem_append.mp h3 with h4 | h4
                    · exact hcontent c h4
                    · rcases List.mem_cons.mp h4 with h5 | h5
                      · exact h5 ▸ hq
                      · exact ih r3 hr3 c h5
            next hnone =>
              rcases List.mem_cons.mp hc with h1 | h1
              · exact h c (by simp [h1, hx])
              · exact ih rest hrest c h1
          · rw [if_neg hqq] at hc
            rcases List.mem_cons.mp hc with h1 | h1
            · exact h c (by simp [h1, hx])
            · exact ih rest hrest c h1
        next heq =>
          rcases List.mem_cons.mp hc with h1 | h1
          · exact h c (by simp [h1, hx])
          · exact ih rest hrest c h1
      · rw [if_neg hx] at hc
        rcases List.mem_cons.mp hc with h1 | h1
        · exact h c (by simp [h1])
        · exact ih rest hrest c h1

lemma stripCtl_not_ctl (l : List Char) : ∀ c ∈ stripCtl l, isCtlStrip c = false := by
  intro c hc
  rw [stripCtl, List.mem_filter] at hc
  simpa using hc.2

lemma repairBase_not_ctl (l : List Char) : ∀ c ∈ repairBase l, isCtlStrip c = false := by
  have h1 := stripCtl_not_ctl l
  have h2 : ∀ c ∈ removeTrailingCommas (stripCtl l), isCtlStrip c = false := by
    intro c hc
    have := rtcF_pres (fun c => !isCtlStrip c) (stripCtl l).length (stripCtl l)
      (fun c hc => by simp [h1 c hc]) c hc
    simpa using this
  have h3 : ∀ c ∈ quoteBareKeys (removeTrailingCommas (stripCtl l)), isCtlStrip c = false := by
    intro c hc
    have := qkF_pres (fun c => !isCtlStrip c) (by decide)
      (removeTrailingCommas (stripCtl l)).length _ (fun c hc => by simp [h2 c hc]) c hc
    simpa using this
  intro c hc
  have := s2dF_pres (fun c => !isCtlStrip c) (by decide) (by decide)
    (quoteBareKeys (removeTrailingCommas (stripCtl l))).length _
    (fun c hc => by simp [h3 c hc]) c hc
  simpa using this

lemma escRawNl_eq_self {l : List Char} (h : ∀ c ∈ l, c ≠ '\n') : escRawNl l = l := by
  induction l with
  | nil => rfl
  | cons c r ih =>
    rw [escRawNl, if_neg (h c (List.mem_cons_self _ _)),
      ih (fun c hc => h c (List.mem_cons_of_mem _ hc))]

lemma escRawCr_eq_self {l : List Char} (h : ∀ c ∈ l, c ≠ '\r') : escRawCr l = l := by
  induction l with
  | nil => rfl
  | cons c r ih =>
    rw [escRawCr, if_neg (h c (List.mem_cons_self _ _)),
      ih (fun c hc => h c (List.mem_cons_of_mem _ hc))]

lemma escRawTab_eq_self {l : List Char} (h : ∀ c ∈ l, c ≠ '\t') : escRawTab l = l := by
  induction l with
  | nil => rfl
  | cons c r ih =>
    rw [escRawTab, if_neg (h c (List.mem_cons_self _ _)),
      ih (fun c hc => h c (List.mem_cons_of_mem _ hc))]

/-- The escaping steps of the first backend copy are no-ops after the shared
repair steps. -/
lemma repairChain1_eq_repairBase (l : List Char) : repairChain1 l = repairBase l := by
  have hctl := repairBase_not_ctl l
  have hnl : escRawNl (repairBase l) = repairBase l :=
    escRawNl_eq_self (fun c hc he => by subst he; exact absurd (hctl _ hc) (by decide))
  have hcr : escRawCr (repairBase l) = repairBase l :=
    escRawCr_eq_self (fun c hc he => by subst he; exact absurd (hctl _ hc) (by decide))
  have htab : escRawTab (repairBase l) = repairBase l :=
    escRawTab_eq_self (fun c hc he => by subst he; exact absurd (hctl _ hc) (by decide))
  rw [repairChain1, hnl, hcr, htab]

/-- Claim C9: in the first backend copy, the control-character strip removes
every raw newline, carriage return and tab, so the three escaping replacements
that follow the shared repair steps never change their input: the full repair
chain equals the chain with those three steps removed, on every input. -/
theorem claim_C9_escape_steps_redundant (l : List Char) : repairChain1 l = repairBase l :=
  repairChain1_eq_repairBase l

lemma sanitizeField_length (m : Nat) (s : String) : (sanitizeField m s).length ≤ m := by
  show (((jsTrimL s.data).take m).filter _).length ≤ m
  exact le_trans (List.length_filter_le _ _) (List.length_take_le _ _)

lemma sanitizeField_no_angle (m : Nat) (s : String) :
    ∀ ch ∈ (sanitizeField m s).data, ch ≠ '<' ∧ ch ≠ '>' := by
  intro ch hch
  have hch' : ch ∈ ((jsTrimL s.data).take m).filter (fun c => !(c = '<' || c = '>')) := hch
  rw [List.mem_filter] at hch'
  constructor
  · intro he; subst he; simpa using hch'.2
  · intro he; subst he; simpa using hch'.2

/-- Claim C4, amended: on every successful request the returned set's length is
min(validItemCount, itemCount), and every returned card is the sanitization of
a parsed item that passed validation — its fields are capped at 500 and 2000
characters and contain no angle brackets.  (The original claim's additional
"non-empty after trimming" clause fails: sanitization strips angle brackets
after validation, so a term consisting only of angle brackets sanitizes to the
empty string — see the counterexample.) -/
theorem claim_C4_amended_bounds (raw : String) (count : Nat) (cards : List Card)
    (h : pipeline1 raw count = Except.ok cards) :
    ∃ vs, coerce1 raw = Except.ok vs
      ∧ cards.length = min ((vs.filter isValidCard).length) count
      ∧ ∀ c ∈ cards,
          c.term.length ≤ 500 ∧ c.definition.length ≤ 2000
          ∧ (∀ ch ∈ c.term.data, ch ≠ '<' ∧ ch ≠ '>')
          ∧ (∀ ch ∈ c.definition.data, ch ≠ '<' ∧ ch ≠ '>')
          ∧ ∃ v ∈ vs, isValidCard v = true ∧ c = sanitizeCard (toCard v) := by
  unfold pipeline1 at h
  cases hco : coerce1 raw with
  | error e => rw [hco] at h; exact absurd h (by simp)
  | ok vs =>
    rw [hco] at h
    refine ⟨vs, rfl, ?_⟩
    by_cases hemp : (vs.filter isValidCard).isEmpty
    · simp only [hemp, if_true] at h
      exact absurd h (by simp)
    · simp only [hemp, if_false, Bool.false_eq_true, Except.ok.injEq] at h
      subst h
      constructor
      · rw [List.length_map, List.length_take, min_comm]
      · intro c hc
        rw [List.mem_map] at hc
        obtain ⟨v, hv, hcv⟩ := hc
        have hvfilt : v ∈ vs.filter isValidCard := (List.take_subset _ _) hv
        have hvvalid : isValidCard v = true := (List.mem_filter.mp hvfilt).2
        have hvmem : v ∈ vs := (List.mem_filter.mp hvfilt).1
        subst hcv
        exact ⟨sanitizeField_length 500 _, sanitizeField_length 2000 _,
          sanitizeField_no_angle 500 _, sanitizeField_no_angle 2000 _,
          v, hvmem, hvvalid, rfl⟩

/-- Claim C4, counterexample to the original statement: a successful request
whose returned card has an empty term (the raw term was the two angle-bracket
characters, non-empty after trimming, emptied by sanitization). -/
theorem claim_C4_counterexample :
    pipeline1 rawAngleTerm 5 = Except.ok [Card.mk "" "D"]
    ∧ jsTrimL (Card.mk "" "D").term.data = [] := ⟨rfl, rfl⟩

/-- Witness for the amended C4 at a concrete successful request: three valid
items, two requested. -/
theorem claim_C4_amended_bounds_witness :
    ∃ vs, coerce1 rawThreeItems = Except.ok vs
      ∧ ([Card.mk "T1" "D1", Card.mk "T2" "D2"] : List Card).length
          = min ((vs.filter isValidCard).length) 2
      ∧ ∀ c ∈ ([Card.mk "T1" "D1", Card.mk "T2" "D2"] : List Card),
          c.term.length ≤ 500 ∧ c.definition.length ≤ 2000
          ∧ (∀ ch ∈ c.term.data, ch ≠ '<' ∧ ch ≠ '>')
          ∧ (∀ ch ∈ c.definition.data, ch ≠ '<' ∧ ch ≠ '>')
          ∧ ∃ v ∈ vs, isValidCard v = true ∧ c = sanitizeCard (toCard v) :=
  claim_C4_amended_bounds rawThreeItems 2 _ rfl

/-- Claim C5: when the parsed top-level value is an array in which no element
passes field validation, the request fails with the no-valid-items
classification and the HTTP caller answers 400. -/
theorem claim_C5_no_valid_items (raw : String) (count : Nat) (vs : List JVal)
    (hp : jsParseL (cleanJson1 raw) = some (JVal.arr vs))
    (hv : ∀ v ∈ vs, isValidCard v = false) :
    handler1 raw count = Except.error (400, noValidRespMsg) := by
  have hco : coerce1 raw = Except.ok vs := by simp [coerce1, hp]
  have hfilt : vs.filter isValidCard = [] :=
    List.filter_eq_nil_iff.mpr (fun a ha => by simp [hv a ha])
  have hpipe : pipeline1 raw count = Except.error noValidMsg := by
    unfold pipeline1
    rw [hco]
    simp [hfilt]
  simp only [handler1, hpipe]
  rfl

/-- Witness for C5: an array whose single element misses the definition field. -/
theorem claim_C5_no_valid_items_witness :
    handler1 rawMissingDef 5 = Except.error (400, noValidRespMsg) := by
  refine claim_C5_no_valid_items rawMissingDef 5 [JVal.obj [("term", JVal.str "A")]] rfl ?_
  intro v hv
  rw [List.mem_singleton] at hv
  subst hv
  rfl

/-- Claim C6: when strict parsing fails on the cleaned candidate, the request
is classified as an invalid AI response with status 500 exactly when the
structural fallback finds no term/definition match; when the fallback does
match, the items handed to validation are exactly the reconstructed matches in
order of appearance. -/
theorem claim_C6_fallback_iff (raw : String) (count : Nat)
    (hp : jsParseL (cleanJson1 raw) = none) :
    (handler1 raw count = Except.error (500, invalidRespMsg)
        ↔ fallbackExtract (cleanJson1 raw) = [])
    ∧ (fallbackExtract (cleanJson1 raw) ≠ [] →
        coerce1 raw = Except.ok ((fallbackExtract (cleanJson1 raw)).map pairToObj)) := by
  cases hfb : fallbackExtract (cleanJson1 raw) with
  | nil =>
    have hco : coerce1 raw = Except.error parseFailMsg1 := by simp [coerce1, hp, hfb]
    have hh : handler1 raw count = Except.error (500, invalidRespMsg) := by
      have hpipe : pipeline1 raw count = Except.error parseFailMsg1 := by
        unfold pipeline1; rw [hco]
      simp only [handler1, hpipe]
      rfl
    exact ⟨⟨fun _ => rfl, fun _ => hh⟩, fun hne => absurd rfl hne⟩
  | cons x xs =>
    have hco : coerce1 raw = Except.ok ((x :: xs).map pairToObj) := by
      simp [coerce1, hp, hfb]
    refine ⟨⟨?_, ?_⟩, fun _ => hco⟩
    · intro hh
      exfalso
      by_cases hemp : (((x :: xs).map pairToObj).filter isValidCard).isEmpty
      · have hpipe : pipeline1 raw count = Except.error noValidMsg := by
          unfold pipeline1
          rw [hco]
          dsimp only
          rw [if_pos hemp]
        unfold handler1 at hh
        rw [hpipe] at hh
        dsimp only at hh
        rw [show mapErrMsg1 noValidMsg = (400, noValidRespMsg) from rfl] at hh
        exact absurd (Except.error.inj hh) (by decide)
      · have hpipe : pipeline1 raw count =
            Except.ok (((((x :: xs).map pairToObj).filter isValidCard).take count).map
              (fun v => sanitizeCard (toCard v))) := by
          unfold pipeline1
          rw [hco]
          dsimp only
          rw [if_neg hemp]
        unfold handler1 at hh
        rw [hpipe] at hh
        exact Except.noConfusion hh
    · intro h0; exact absurd h0 (List.cons_ne_nil x xs)

/-- Witness for C6: prose with no array structure and no pattern match gives
the 500 invalid-response classification. -/
theorem claim_C6_fallback_iff_witness :
    handler1 rawProse 5 = Except.error (500, invalidRespMsg) :=
  (claim_C6_fallback_iff rawProse 5 rfl).1.mpr rfl

/-- Claim C10: in the worker copy, a strict-parse failure on the cleaned
candidate errors immediately with the parse-failure classification (500); no
fallback extraction is attempted. -/
theorem claim_C10_worker_no_fallback (raw : String) (regen : RegenResult)
    (count : Nat) (level : String) (hp : jsParseL (cleanWorker raw) = none) :
    workerHandler raw regen count level = (Except.error (500, invalidRespMsg), 0) := by
  have hco : coerceW raw = Except.error parseFailMsgW := by simp [coerceW, hp]
  unfold workerHandler
  rw [hco]
  rfl

/-- Witness for C10: an unterminated array whose candidate the backend fallback
recovers (two items extracted, request succeeds) while the worker errors. -/
theorem claim_C10_worker_no_fallback_witness :
    fallbackExtract (cleanWorker rawUnclosed) ≠ []
    ∧ handler1 rawUnclosed 5 = Except.ok [Card.mk "A" "B"]
    ∧ workerHandler rawUnclosed RegenResult.fail 5 "beginner"
        = (Except.error (500, invalidRespMsg), 0) :=
  ⟨by decide, rfl, claim_C10_worker_no_fallback rawUnclosed RegenResult.fail 5 "beginner" rfl⟩

/-- Claim C7: an item passes the expert difficulty policy exactly when its
combined lowercased text contains no banned simple-vocabulary member, contains
at least two distinct expert-vocabulary members, and its definition exceeds
150 characters; the whole set is accepted exactly when every item passes; and
an accepted set triggers zero regeneration calls. -/
theorem claim_C7_expert_policy :
    (∀ c : Card, isExpertCard c = true ↔ SpecExpertItem c)
    ∧ (∀ cards : List Card, isExpertContent cards = true ↔ ∀ c ∈ cards, SpecExpertItem c)
    ∧ (∀ (cards : List Card) (regen : RegenResult) (count : Nat),
        isExpertContent cards = true →
          workerExpertStage "expert" cards regen count = (cards, 0)) := by
  have hitem : ∀ c : Card, isExpertCard c = true ↔ SpecExpertItem c := by
    intro c
    constructor
    · intro h
      by_cases hb : bannedSimpleTerms.any (fun t => jsIncludes (combinedText c) t)
      · simp only [isExpertCard, hb, if_true] at h
        exact absurd h (by simp)
      · simp only [isExpertCard, hb, Bool.false_eq_true, if_false] at h
        rw [Bool.and_eq_true, decide_eq_true_eq, decide_eq_true_eq] at h
        refine ⟨?_, h.1, h.2⟩
        intro b hbm hinc
        exact hb (List.any_eq_true.mpr ⟨b, hbm, hinc⟩)
    · rintro ⟨h1, h2, h3⟩
      have hb : bannedSimpleTerms.any (fun t => jsIncludes (combinedText c) t) = false := by
        rw [Bool.eq_false_iff]
        intro hb'
        rw [List.any_eq_true] at hb'
        obtain ⟨b, hbm, hinc⟩ := hb'
        exact h1 b hbm hinc
      simp only [isExpertCard, hb, Bool.false_eq_true, if_false]
      rw [Bool.and_eq_true, decide_eq_true_eq, decide_eq_true_eq]
      exact ⟨h2, h3⟩
  refine ⟨hitem, ?_, ?_⟩
  · intro cards
    rw [isExpertContent, List.all_eq_true]
    exact ⟨fun h c hc => (hitem c).mp (h c hc), fun h c hc => (hitem c).mpr (h c hc)⟩
  · intro cards regen count hpass
    simp [workerExpertStage, hpass]

set_option maxRecDepth 100000 in
/-- Witness for C7: a concrete passing set is accepted with zero regeneration
calls and returned unchanged. -/
theorem claim_C7_expert_policy_witness :
    isExpertContent [expertCardOk] = true
    ∧ workerExpertStage "expert" [expertCardOk] RegenResult.fail 5 = ([expertCardOk], 0) :=
  ⟨by decide, claim_C7_expert_policy.2.2 [expertCardOk] RegenResult.fail 5 (by decide)⟩

lemma memberStr_iff (xs : List String) (s : String) : memberStr xs s = true ↔ s ∈ xs := by
  rw [memberStr, List.any_eq_true]
  constructor
  · rintro ⟨x, hx, he⟩
    rw [decide_eq_true_eq] at he
    exact he ▸ hx
  · intro hs
    exact ⟨s, hs, by simp⟩

/-- Claim C8, amended: the boundary validation accepts a request exactly when
the context is a string of at most 50000 characters with at least 3 after
trimming, the language is one of the 12 codes, the count is a number between 5
and 20 (integrality is NOT checked — see the counterexample), and the level is
one of the 4 enum values; every rejected request receives status 400, and a
rejected request is answered identically whatever the model would return — it
is never handed to the pipeline. -/
theorem claim_C8_amended_boundary (b : Body) :
    (validateInput b = none ↔ ValidRequest b)
    ∧ (∀ e, validateInput b = some e → e.1 = 400)
    ∧ (∀ e, validateInput b = some e → ∀ raw regen,
        handlerFull b raw regen = Except.error e) := by
  obtain ⟨ctx, lang, cnt, lvl⟩ := b
  refine ⟨⟨?_, ?_⟩, ?_, ?_⟩
  · -- acceptance implies the conditions
    intro h
    cases ctx with
    | str s =>
      cases lang with
      | str l =>
        cases cnt with
        | num q =>
          cases lvl with
          | str v =>
            unfold validateInput at h
            dsimp only at h
            split_ifs at h with h1 h2 h3 h4 h5 h6 h7 h8
            refine ⟨⟨s, rfl, not_lt.mp h2, not_lt.mp h3⟩, ⟨l, rfl, ?_⟩,
              ⟨q, rfl, ?_, ?_⟩, ⟨v, rfl, ?_⟩⟩
            · have : memberStr supportedLanguages l = true := by
                by_contra hm
                exact h5 (by simp [Bool.eq_false_iff.mpr hm])
              exact (memberStr_iff _ _).mp this
            · have h6' := Bool.eq_false_iff.mpr h6
              simp only [Bool.or_eq_false_iff, decide_eq_false_iff_not] at h6'
              exact not_lt.mp h6'.1.2
            · have h6' := Bool.eq_false_iff.mpr h6
              simp only [Bool.or_eq_false_iff, decide_eq_false_iff_not] at h6'
              exact not_lt.mp h6'.2
            · have : memberStr supportedLevels v = true := by
                by_contra hm
                exact h8 (by simp [Bool.eq_false_iff.mpr hm])
              exact (memberStr_iff _ _).mp this
          | undef => unfold validateInput at h; dsimp only at h; split_ifs at h
          | nul => unfold validateInput at h; dsimp only at h; split_ifs at h
          | bool b => unfold validateInput at h; dsimp only at h; split_ifs at h
          | num q2 => unfold validateInput at h; dsimp only at h; split_ifs at h
          | obj => unfold validateInput at h; dsimp only at h; split_ifs at h
        | undef => unfold validateInput at h; dsimp only at h; split_ifs at h
        | nul => unfold validateInput at h; dsimp only at h; split_ifs at h
        | bool b => unfold validateInput at h; dsimp only at h; split_ifs at h
        | str s2 => unfold validateInput at h; dsimp only at h; split_ifs at h
        | obj => unfold validateInput at h; dsimp only at h; split_ifs at h
      | undef => unfold validateInput at h; dsimp only at h; split_ifs at h
      | nul => unfold validateInput at h; dsimp only at h; split_ifs at h
      | bool b => unfold validateInput at h; dsimp only at h; split_ifs at h
      | num q2 => unfold validateInput at h; dsimp only at h; split_ifs at h
      | obj => unfold validateInput at h; dsimp only at h; split_ifs at h
    | undef => cases h
    | nul => cases h
    | bool b => cases h
    | num q => cases h
    | obj => cases h
  · -- the conditions imply acceptance
    rintro ⟨⟨s, hctx, hs1, hs2⟩, ⟨l, hlang, hl⟩, ⟨q, hcnt, hq1, hq2⟩, ⟨v, hlvl, hv⟩⟩
    subst hctx; subst hlang; subst hcnt; subst hlvl
    have h1 : ¬(s.data.isEmpty = true) := by
      rw [List.isEmpty_iff]
      intro he
      rw [he] at hs2
      exact absurd hs2 (by decide)
    have h2 : ¬(50000 < s.length) := not_lt.mpr hs1
    have h3 : ¬((jsTrimL s.data).length < 3) := not_lt.mpr hs2
    have hlne : ¬(l.data.isEmpty = true) := by
      rw [List.isEmpty_iff]
      intro he
      have hl' := hl
      simp only [supportedLanguages, List.mem_cons, List.mem_singleton,
        List.not_mem_nil, or_false] at hl'
      rcases hl' with rfl|rfl|rfl|rfl|rfl|rfl|rfl|rfl|rfl|rfl|rfl|rfl <;>
        exact absurd he (by decide)
    have hlm : memberStr supportedLanguages l = true := (memberStr_iff _ _).mpr hl
    have hvne : ¬(v.data.isEmpty = true) := by
      rw [List.isEmpty_iff]
      intro he
      have hv' := hv
      simp only [supportedLevels, List.mem_cons, List.mem_singleton,
        List.not_mem_nil, or_false] at hv'
      rcases hv' with rfl|rfl|rfl|rfl <;> exact absurd he (by decide)
    have hvm : memberStr supportedLevels v = true := (memberStr_iff _ _).mpr hv
    have hq : (decide (q = 0) || decide (q < 5) || decide (20 < q)) = false := by
      simp only [Bool.or_eq_false_iff, decide_eq_false_iff_not]
      refine ⟨⟨?_, not_lt.mpr hq1⟩, not_lt.mpr hq2⟩
      intro he
      rw [he] at hq1
      exact absurd hq1 (by norm_num)
    unfold validateInput
    dsimp only
    rw [if_neg h1, if_neg h2, if_neg h3, if_neg (by simp [hlne]),
      if_neg (by simp [hlm]), if_neg (by simp [hq]),
      if_neg (by simp [hvne]), if_neg (by simp [hvm])]
  · -- every rejection carries status 400
    intro e he
    unfold validateInput at he
    repeat' split at he
    all_goals cases he
    all_goals rfl
  · -- a rejected request is answered by the validator alone
    intro e he raw regen
    simp [handlerFull, he]

/-- Claim C8, counterexample to the original statement: the non-integral count
7.5 passes boundary validation, although the claim requires count to be an
integer. -/
theorem claim_C8_counterexample :
    validateInput bodyHalfCount = none ∧ (mkRat 15 2).den ≠ 1 := ⟨rfl, by decide⟩

/-- Witness for the amended C8 at a concrete rejected request (unsupported
language code): status 400 and the pipeline is never consulted. -/
theorem claim_C8_amended_boundary_witness :
    validateInput bodyBadLang
      = some (400, "Unsupported language. Please choose from supported languages.")
    ∧ handlerFull bodyBadLang "ignored raw" RegenResult.fail
      = Except.error (400, "Unsupported language. Please choose from supported languages.") :=
  ⟨rfl, (claim_C8_amended_boundary bodyBadLang).2.2 _ rfl "ignored raw" RegenResult.fail⟩

/-- Claim C1 (code bug in the second backend copy): in an expert request whose
first validated set fails the policy, exactly one regeneration call is made in
both implementations; the worker returns the regenerated items, but the
backend copy returns the ORIGINAL policy-failing items even though the
regenerated response is structurally valid — the reassignment of parsedData
after regeneration is dead, because finalCards is built from the validCards of
the first response. -/
theorem claim_C1_backend_discards_regen :
    backend2Handler rawSimpleExpert (RegenResult.ok rawRegenExpert) 5 "expert"
      = (Except.ok [Card.mk "Basic" "simple"], 1)
    ∧ workerHandler rawSimpleExpert (RegenResult.ok rawRegenExpert) 5 "expert"
      = (Except.ok [Card.mk "Quantum" "deep"], 1)
    ∧ backend2ProcessRegen (RegenResult.ok rawRegenExpert)
      = some [JVal.obj [("term", JVal.str "Quantum"), ("definition", JVal.str "deep")]]
    ∧ Card.mk "Basic" "simple" ≠ Card.mk "Quantum" "deep" :=
  ⟨rfl, rfl, rfl, by decide⟩

/-- Claim C3, counterexample: on the mixed-quote variant the single-quote
repair rewrites only the values, the keys stay single-quoted, strict parsing
and the fallback both fail, and the request errors — it does not yield the
item the claim promises. -/
theorem claim_C3_counterexample :
    pipeline1 rawMixedQuotes 5 = Except.error parseFailMsg1
    ∧ String.mk (cleanJson1 rawMixedQuotes)
        = "[\x7b\x27term\x27: \"A\", \x27definition\x27: \"B\"\x7d]" := ⟨rfl, rfl⟩

/-- Claim C3, amended: the trailing-comma input is repaired and yields the
single item; the mixed-quote variant fails with the malformed-response
classification (HTTP 500), since the repair converts only single-quoted
values, not keys. -/
theorem claim_C3_amended_repairs :
    handler1 rawTrailingComma 5 = Except.ok [Card.mk "A" "B"]
    ∧ handler1 rawMixedQuotes 5 = Except.error (500, invalidRespMsg) := ⟨rfl, rfl⟩

lemma dropWhile_cons_false {p : Char → Bool} {c : Char} {l : List Char} (h : p c = false) :
    (c :: l).dropWhile p = c :: l := by
  simp [List.dropWhile_cons, h]

lemma rdropWhileL_concat {p : Char → Bool} {c : Char} (l : List Char) (h : p c = false) :
    rdropWhileL p (l ++ [c]) = l ++ [c] := by
  rw [rdropWhileL, List.reverse_append]
  simp only [List.reverse_cons, List.reverse_nil, List.nil_append, List.singleton_append]
  rw [dropWhile_cons_false h, List.reverse_cons, List.reverse_reverse]

lemma jsTrimL_serItems (items : List Card) : jsTrimL (serItems items) = serItems items := by
  rw [serItems, jsTrimL, dropWhile_cons_false (by decide : isJsWs '[' = false)]
  rw [show ('[' :: (serBody items ++ [']']) : List Char) = ('[' :: serBody items) ++ [']'] by simp]
  rw [rdropWhileL_concat _ (by decide : isJsWs ']' = false)]

lemma stripFence_serItems (items : List Card) : stripFence (serItems items) = serItems items := by
  have h : startsWithL [btick, btick, btick] ('[' :: (serBody items ++ [']'])) = false := by
    simp [startsWithL, btick]
  rw [serItems, stripFence]
  simp [h]

lemma splitAtChar_head {t : Char} (l : List Char) : splitAtChar t (t :: l) = some ([], l) := by
  simp [splitAtChar]

lemma bracketSlice_serItems (items : List Card) :
    bracketSlice (serItems items) = serItems items := by
  rw [serItems, bracketSlice, splitAtChar_head]
  dsimp only
  rw [show (serBody items ++ [']']).reverse = ']' :: (serBody items).reverse by simp]
  rw [splitAtChar_head]
  dsimp only
  simp

lemma normalizeRaw_serItems (items : List Card) :
    normalizeRaw (serializeItems items) = serItems items := by
  rw [normalizeRaw, serializeItems]
  rw [show (String.mk (serItems items)).data = serItems items from rfl]
  rw [jsTrimL_serItems, stripFence_serItems, bracketSlice_serItems]

lemma followOk_cons (trig ok : Char → Bool) (c : Char) (r : List Char) (nxt : Option Char) :
    followOk trig ok (c :: r) nxt =
      ((if trig c then
          match r with
          | d :: _ => ok d
          | [] =>
            match nxt with
            | some d => ok d
            | none => false
        else true)
        && followOk trig ok r nxt) := rfl

lemma followOk_append (trig ok : Char → Bool) :
    ∀ (a b : List Char) (nxt : Option Char),
      followOk trig ok (a ++ b) nxt =
        (followOk trig ok a (match b with | [] => nxt | d :: _ => some d)
          && followOk trig ok b nxt) := by
  intro a
  induction a with
  | nil => intro b nxt; simp [followOk]
  | cons c r ih =>
    intro b nxt
    rw [List.cons_append]
    simp only [followOk]
    rw [ih b nxt, ← Bool.and_assoc]
    congr 1
    cases r with
    | nil => cases b <;> rfl
    | cons d r2 => rfl

lemma followOk_no_trig (trig ok : Char → Bool) :
    ∀ (l : List Char) (nxt : Option Char), (∀ c ∈ l, trig c = false) →
      followOk trig ok l nxt = true := by
  intro l
  induction l with
  | nil => intro nxt _; rfl
  | cons c r ih =>
    intro nxt h
    simp only [followOk, h c (List.mem_cons_self _ _), Bool.false_eq_true, if_false,
      Bool.true_and]
    exact ih nxt (fun c hc => h c (List.mem_cons_of_mem _ hc))

lemma followOk_nxt_irrel (trig ok : Char → Bool) :
    ∀ (l : List Char) (nxt : Option Char),
      (∀ c, l.getLast? = some c → trig c = false) →
      followOk trig ok l nxt = followOk trig ok l none := by
  intro l
  induction l with
  | nil => intro nxt _; rfl
  | cons c r ih =>
    intro nxt h
    cases r with
    | nil =>
      have hc : trig c = false := h c rfl
      simp [followOk, hc]
    | cons d r2 =>
      have hlast : ∀ e, (d :: r2).getLast? = some e → trig e = false := by
        intro e he
        exact h e (by rw [List.getLast?_cons_cons]; exact he)
      rw [followOk_cons trig ok c (d :: r2) nxt, followOk_cons trig ok c (d :: r2) none,
        ih nxt hlast]

lemma followOk_closed_chunk (trig ok : Char → Bool) (l : List Char)
    (hlast : ∀ c, l.getLast? = some c → trig c = false)
    (hnone : followOk trig ok l none = true) :
    ∀ nxt, followOk trig ok l nxt = true :=
  fun nxt => (followOk_nxt_irrel trig ok l nxt hlast).trans hnone

lemma goodChar_props {c : Char} (h : goodChar c = true) :
    c ≠ '"' ∧ c ≠ '\\' ∧ c ≠ ',' ∧ c ≠ ':' ∧ c ≠ squote ∧ c ≠ lbrace ∧
    c ≠ rbrace ∧ c ≠ '[' ∧ c ≠ ']' ∧ c ≠ '<' ∧ c ≠ '>' ∧
    32 ≤ c.toNat ∧ ¬(127 ≤ c.toNat ∧ c.toNat ≤ 159) := by
  rw [goodChar] at h
  simp only [Bool.and_eq_true, Bool.not_eq_true', Bool.or_eq_false_iff,
    Bool.and_eq_false_iff, decide_eq_true_eq, decide_eq_false_iff_not] at h
  refine ⟨?_, ?_, ?_, ?_, ?_, ?_, ?_, ?_, ?_, ?_, ?_, ?_, ?_⟩ <;> tauto

lemma goodChar_no_sep {c : Char} (h : goodChar c = true) : isSepTrig c = false := by
  obtain ⟨-, -, h3, -, -, h6, -⟩ := goodChar_props h
  simp [isSepTrig, h3, h6]

lemma goodChar_no_comma {c : Char} (h : goodChar c = true) : isCommaTrig c = false := by
  obtain ⟨-, -, h3, -⟩ := goodChar_props h
  simp [isCommaTrig, h3]

lemma goodChar_no_colon {c : Char} (h : goodChar c = true) : isColonTrig c = false := by
  obtain ⟨-, -, -, h4, -⟩ := goodChar_props h
  simp [isColonTrig, h4]

lemma serBody_head (i : Card) (rest : List Card) :
    ∃ tl, serBody (i :: rest) = lbrace :: tl := by
  cases rest with
  | nil => exact ⟨_, rfl⟩
  | cons j rest2 => exact ⟨_, rfl⟩

lemma followOk_serItem (trig ok : Char → Bool)
    (htrig : ∀ c, goodChar c = true → trig c = false)
    (hPre : ∀ nxt, followOk trig ok itemPre nxt = true)
    (hMid : ∀ nxt, followOk trig ok itemMid nxt = true)
    (hSuf : ∀ nxt, followOk trig ok itemSuf nxt = true)
    (i : Card) (hgood : GoodCard i) :
    ∀ nxt, followOk trig ok (serItem i) nxt = true := by
  intro nxt
  have hT : ∀ nxt, followOk trig ok i.term.data nxt = true :=
    fun nxt => followOk_no_trig _ _ _ _ (fun c hc => htrig c (hgood.1.2.2.2 c hc))
  have hD : ∀ nxt, followOk trig ok i.definition.data nxt = true :=
    fun nxt => followOk_no_trig _ _ _ _ (fun c hc => htrig c (hgood.2.2.2.2 c hc))
  rw [serItem]
  simp [followOk_append, hPre, hMid, hSuf, hT, hD]

lemma followOk_serBody (trig ok : Char → Bool)
    (htrig : ∀ c, goodChar c = true → trig c = false)
    (hPre : ∀ nxt, followOk trig ok itemPre nxt = true)
    (hMid : ∀ nxt, followOk trig ok itemMid nxt = true)
    (hSuf : ∀ nxt, followOk trig ok itemSuf nxt = true)
    (hcomma : trig ',' = false ∨ ok lbrace = true) :
    ∀ (items : List Card), (∀ i ∈ items, GoodCard i) →
      ∀ nxt, followOk trig ok (serBody items) nxt = true := by
  intro items
  induction items with
  | nil => intro _ nxt; rfl
  | cons i rest ih =>
    intro hgood nxt
    have hge : GoodCard i := hgood i (List.mem_cons_self _ _)
    have hitem := followOk_serItem trig ok htrig hPre hMid hSuf i hge
    cases rest with
    | nil => exact hitem nxt
    | cons j rest2 =>
      rw [show serBody (i :: j :: rest2) = serItem i ++ ',' :: serBody (j :: rest2) from rfl]
      rw [followOk_append]
      rw [Bool.and_eq_true]
      refine ⟨hitem _, ?_⟩
      obtain ⟨tl, htl⟩ := serBody_head j rest2
      rw [followOk_cons, htl]
      rw [Bool.and_eq_true]
      constructor
      · rcases hcomma with hc | hc
        · simp [hc]
        · by_cases ht : trig ','
          · simp [ht, hc]
          · simp [ht]
      · rw [← htl]
        exact ih (fun k hk => hgood k (List.mem_cons_of_mem _ hk)) nxt

lemma followOk_serItems (trig ok : Char → Bool)
    (htrig : ∀ c, goodChar c = true → trig c = false)
    (hPre : ∀ nxt, followOk trig ok itemPre nxt = true)
    (hMid : ∀ nxt, followOk trig ok itemMid nxt = true)
    (hSuf : ∀ nxt, followOk trig ok itemSuf nxt = true)
    (hcomma : trig ',' = false ∨ ok lbrace = true)
    (hlb : trig '[' = false) (hrb : trig ']' = false)
    (items : List Card) (hgood : ∀ i ∈ items, GoodCard i) :
    followOk trig ok (serItems items) none = true := by
  rw [serItems, followOk_cons, Bool.and_eq_true]
  constructor
  · simp [hlb]
  · rw [followOk_append, Bool.and_eq_true]
    constructor
    · exact followOk_serBody trig ok htrig hPre hMid hSuf hcomma items hgood _
    · rw [followOk_cons]
      simp [hrb, followOk]

lemma followOk_serItems_comma (items : List Card) (hgood : ∀ i ∈ items, GoodCard i) :
    followOk isCommaTrig isOkAfterSep (serItems items) none = true :=
  followOk_serItems _ _ (fun c hc => goodChar_no_comma hc)
    (followOk_closed_chunk _ _ _ (by decide) (by decide))
    (followOk_closed_chunk _ _ _ (by decide) (by decide))
    (followOk_closed_chunk _ _ _ (by decide) (by decide))
    (Or.inr (by decide)) (by decide) (by decide) items hgood

lemma followOk_serItems_sep (items : List Card) (hgood : ∀ i ∈ items, GoodCard i) :
    followOk isSepTrig isOkAfterSep (serItems items) none = true :=
  followOk_serItems _ _ (fun c hc => goodChar_no_sep hc)
    (followOk_closed_chunk _ _ _ (by decide) (by decide))
    (followOk_closed_chunk _ _ _ (by decide) (by decide))
    (followOk_closed_chunk _ _ _ (by decide) (by decide))
    (Or.inr (by decide)) (by decide) (by decide) items hgood

lemma followOk_serItems_colon (items : List Card) (hgood : ∀ i ∈ items, GoodCard i) :
    followOk isColonTrig isOkAfterColon (serItems items) none = true :=
  followOk_serItems _ _ (fun c hc => goodChar_no_colon hc)
    (followOk_closed_chunk _ _ _ (by decide) (by decide))
    (followOk_closed_chunk _ _ _ (by decide) (by decide))
    (followOk_closed_chunk _ _ _ (by decide) (by decide))
    (Or.inl (by decide)) (by decide) (by decide) items hgood

lemma rtcF_eq_self : ∀ (f : Nat) (l : List Char),
    followOk isCommaTrig isOkAfterSep l none = true → rtcF f l = l := by
  intro f
  induction f with
  | zero => intro l _; rfl
  | succ f ih =>
    intro l h
    cases l with
    | nil => rfl
    | cons c rest =>
      rw [followOk_cons, Bool.and_eq_true] at h
      obtain ⟨hchk, htail⟩ := h
      by_cases hc : c = ','
      · subst hc
        cases rest with
        | nil => exact absurd (hchk : false = true) (by decide)
        | cons d r' =>
          have hd : isOkAfterSep d = true := hchk
          have hd2 : d = '"' ∨ d = lbrace := by
            rw [isOkAfterSep] at hd
            simpa using hd
          have hdws : isJsWs d = false := by rcases hd2 with rfl | rfl <;> decide
          have hb : (decide (d = rbrace) || decide (d = ']')) = false := by
            rcases hd2 with rfl | rfl <;> decide
          rw [rtcF_cons, if_pos rfl, dropWhile_cons_false hdws]
          dsimp only
          rw [hb]
          simp only [Bool.false_eq_true, if_false]
          rw [ih _ htail]
      · rw [rtcF_cons, if_neg hc, ih rest htail]

lemma qkF_eq_self : ∀ (f : Nat) (l : List Char),
    followOk isSepTrig isOkAfterSep l none = true → qkF f l = l := by
  intro f
  induction f with
  | zero => intro l _; rfl
  | succ f ih =>
    intro l h
    cases l with
    | nil => rfl
    | cons c rest =>
      rw [followOk_cons, Bool.and_eq_true] at h
      obtain ⟨hchk, htail⟩ := h
      by_cases hc : (c = lbrace || c = ',') = true
      · have hct : isSepTrig c = true := by
          rw [isSepTrig]
          simpa using hc
        cases rest with
        | nil =>
          have : false = true := by
            rw [if_pos hct] at hchk
            exact hchk
          exact absurd this (by decide)
        | cons d r' =>
          have hd : isOkAfterSep d = true := by
            rw [if_pos hct] at hchk
            exact hchk
          have hd2 : d = '"' ∨ d = lbrace := by
            rw [isOkAfterSep] at hd
            simpa using hd
          have hdws : isJsWs d = false := by rcases hd2 with rfl | rfl <;> decide
          have hdw : isWordChar d = false := by rcases hd2 with rfl | rfl <;> decide
          rw [qkF_cons, if_pos (by simpa using hc)]
          rw [dropWhile_cons_false hdws]
          rw [List.takeWhile_cons_of_neg (by simp [hdw])]
          simp only [List.isEmpty_nil, if_true]
          rw [ih _ htail]
      · rw [qkF_cons, if_neg (by simpa using hc), ih rest htail]

lemma s2dF_eq_self : ∀ (f : Nat) (l : List Char),
    followOk isColonTrig isOkAfterColon l none = true → s2dF f l = l := by
  intro f
  induction f with
  | zero => intro l _; rfl
  | succ f ih =>
    intro l h
    cases l with
    | nil => rfl
    | cons c rest =>
      rw [followOk_cons, Bool.and_eq_true] at h
      obtain ⟨hchk, htail⟩ := h
      by_cases hc : c = ':'
      · subst hc
        have hct : isColonTrig ':' = true := by decide
        cases rest with
        | nil =>
          have : false = true := by
            rw [if_pos hct] at hchk
            exact hchk
          exact absurd this (by decide)
        | cons d r' =>
          have hd : isOkAfterColon d = true := by
            rw [if_pos hct] at hchk
            exact hchk
          have hd2 : d = '"' := by
            rw [isOkAfterColon] at hd
            simpa using hd
          subst hd2
          rw [s2dF_cons, if_pos rfl, dropWhile_cons_false (by decide)]
          dsimp only
          rw [if_neg (by decide)]
          rw [ih _ htail]
      · rw [s2dF_cons, if_neg hc, ih rest htail]

lemma serItem_chars (i : Card) (hgood : GoodCard i) :
    ∀ c ∈ serItem i, goodChar c = true ∨ c ∈ itemPre ++ itemMid ++ itemSuf := by
  intro c hc
  rw [serItem] at hc
  simp only [List.append_assoc, List.mem_append] at hc
  rcases hc with h | h | h | h | h
  · right; simp [List.mem_append, h]
  · left; exact hgood.1.2.2.2 c h
  · right; simp [List.mem_append, h]
  · left; exact hgood.2.2.2.2 c h
  · right; simp [List.mem_append, h]

lemma serBody_chars : ∀ (items : List Card), (∀ i ∈ items, GoodCard i) →
    ∀ c ∈ serBody items, goodChar c = true ∨ c ∈ ',' :: (itemPre ++ itemMid ++ itemSuf) := by
  intro items
  induction items with
  | nil => intro _ c hc; cases hc
  | cons i rest ih =>
    intro hgood c hc
    have hgi : GoodCard i := hgood i (List.mem_cons_self _ _)
    cases rest with
    | nil =>
      rcases serItem_chars i hgi c hc with h | h
      · exact Or.inl h
      · exact Or.inr (List.mem_cons_of_mem _ h)
    | cons j rest2 =>
      rw [show serBody (i :: j :: rest2) = serItem i ++ ',' :: serBody (j :: rest2) from rfl]
        at hc
      rcases List.mem_append.mp hc with h | h
      · rcases serItem_chars i hgi c h with h2 | h2
        · exact Or.inl h2
        · exact Or.inr (List.mem_cons_of_mem _ h2)
      · rcases List.mem_cons.mp h with h2 | h2
        · exact Or.inr (h2 ▸ List.mem_cons_self _ _)
        · exact ih (fun k hk => hgood k (List.mem_cons_of_mem _ hk)) c h2

lemma serItems_chars (items : List Card) (hgood : ∀ i ∈ items, GoodCard i) :
    ∀ c ∈ serItems items,
      goodChar c = true ∨ c ∈ '[' :: ']' :: ',' :: (itemPre ++ itemMid ++ itemSuf) := by
  intro c hc
  rw [serItems] at hc
  rcases List.mem_cons.mp hc with h | h
  · exact Or.inr (h ▸ List.mem_cons_self _ _)
  · rcases List.mem_append.mp h with h2 | h2
    · rcases serBody_chars items hgood c h2 with h3 | h3
      · exact Or.inl h3
      · rcases List.mem_cons.mp h3 with h4 | h4
        · exact Or.inr (by subst h4; simp)
        · exact Or.inr
            (List.mem_cons_of_mem _ (List.mem_cons_of_mem _ (List.mem_cons_of_mem _ h4)))
    · rw [List.mem_singleton] at h2
      exact Or.inr (by subst h2; simp)

lemma stripCtl_serItems (items : List Card) (hgood : ∀ i ∈ items, GoodCard i) :
    stripCtl (serItems items) = serItems items := by
  rw [stripCtl, List.filter_eq_self]
  intro c hc
  rcases serItems_chars items hgood c hc with h | h
  · obtain ⟨-, -, -, -, -, -, -, -, -, -, -, h12, h13⟩ := goodChar_props h
    simp only [isCtlStrip, Bool.not_eq_true', Bool.or_eq_false_iff]
    constructor
    · simp only [decide_eq_false_iff_not]
      omega
    · simp only [Bool.and_eq_false_iff, decide_eq_false_iff_not]
      by_cases h127 : 127 ≤ c.toNat
      · exact Or.inr (fun hle => h13 ⟨h127, hle⟩)
      · exact Or.inl h127
  · have haux : ∀ x ∈ ('[' :: ']' :: ',' :: (itemPre ++ itemMid ++ itemSuf) : List Char),
        (!isCtlStrip x) = true := by decide
    exact haux c h

lemma serItems_no_backslash (items : List Card) (hgood : ∀ i ∈ items, GoodCard i) :
    ∀ c ∈ serItems items, c ≠ '\\' := by
  intro c hc
  rcases serItems_chars items hgood c hc with h | h
  · exact (goodChar_props h).2.1
  · have haux : ∀ x ∈ ('[' :: ']' :: ',' :: (itemPre ++ itemMid ++ itemSuf) : List Char),
        x ≠ '\\' := by decide
    exact haux c h

lemma escEscNl_eq_self {l : List Char} (h : ∀ c ∈ l, c ≠ '\\') : escEscNl l = l := by
  induction l with
  | nil => rfl
  | cons c rest ih =>
    cases rest with
    | nil => rfl
    | cons d r =>
      rw [escEscNl]
      rw [if_neg (by simp [h c (List.mem_cons_self _ _)])]
      rw [ih (fun e he => h e (List.mem_cons_of_mem _ he))]

lemma escEscCr_eq_self {l : List Char} (h : ∀ c ∈ l, c ≠ '\\') : escEscCr l = l := by
  induction l with
  | nil => rfl
  | cons c rest ih =>
    cases rest with
    | nil => rfl
    | cons d r =>
      rw [escEscCr]
      rw [if_neg (by simp [h c (List.mem_cons_self _ _)])]
      rw [ih (fun e he => h e (List.mem_cons_of_mem _ he))]

lemma escEscTab_eq_self {l : List Char} (h : ∀ c ∈ l, c ≠ '\\') : escEscTab l = l := by
  induction l with
  | nil => rfl
  | cons c rest ih =>
    cases rest with
    | nil => rfl
    | cons d r =>
      rw [escEscTab]
      rw [if_neg (by simp [h c (List.mem_cons_self _ _)])]
      rw [ih (fun e he => h e (List.mem_cons_of_mem _ he))]

lemma repairBase_serItems (items : List Card) (hgood : ∀ i ∈ items, GoodCard i) :
    repairBase (serItems items) = serItems items := by
  rw [repairBase, stripCtl_serItems items hgood]
  rw [removeTrailingCommas, rtcF_eq_self _ _ (followOk_serItems_comma items hgood)]
  rw [quoteBareKeys, qkF_eq_self _ _ (followOk_serItems_sep items hgood)]
  rw [singleToDoubleQuotes, s2dF_eq_self _ _ (followOk_serItems_colon items hgood)]

lemma repairChain2_serItems (items : List Card) (hgood : ∀ i ∈ items, GoodCard i) :
    repairChain2 (serItems items) = serItems items := by
  have hnb := serItems_no_backslash items hgood
  rw [repairChain2, repairBase_serItems items hgood]
  rw [escEscNl_eq_self hnb, escEscCr_eq_self hnb, escEscTab_eq_self hnb]

lemma cleanJson1_serItems (items : List Card) (hgood : ∀ i ∈ items, GoodCard i) :
    cleanJson1 (serializeItems items) = serItems items := by
  rw [cleanJson1, normalizeRaw_serItems, repairChain1_eq_repairBase,
    repairBase_serItems items hgood]

lemma cleanJson2_serItems (items : List Card) (hgood : ∀ i ∈ items, GoodCard i) :
    cleanJson2 (serializeItems items) = serItems items := by
  rw [cleanJson2, normalizeRaw_serItems, repairChain2_serItems items hgood]

lemma skipWs_cons_false {c : Char} {l : List Char} (h : isJsonWs c = false) :
    skipWs (c :: l) = c :: l := by
  simp [skipWs, List.dropWhile_cons, h]

lemma parseVal_lbrace (f : Nat) (X : List Char) :
    parseVal (f + 1) (lbrace :: X) =
      (match skipWs X with
      | [] => none
      | b :: r' =>
        if b = rbrace then some (JVal.obj [], r')
        else
          match parseMembers f X with
          | some (ms, r'') => some (JVal.obj ms, r'')
          | none => none) := by
  rw [parseVal, skipWs_cons_false (by decide)]
  rfl

lemma parseStrBody_content : ∀ (K : List Char) (f : Nat) (rest : List Char),
    (∀ c ∈ K, goodChar c = true) → K.length < f →
    parseStrBodyF f (K ++ '"' :: rest) = some (K, rest) := by
  intro K
  induction K with
  | nil =>
    intro f rest _ hf
    cases f with
    | zero => omega
    | succ f => rfl
  | cons c K2 ih =>
    intro f rest hgood hf
    cases f with
    | zero => omega
    | succ f =>
      obtain ⟨h1, h2, -⟩ := goodChar_props (hgood c (List.mem_cons_self _ _))
      have h3 : ¬(c.toNat < 32) := by
        have := (goodChar_props (hgood c (List.mem_cons_self _ _))).2.2.2.2.2.2.2.2.2.2.2.1
        omega
      rw [List.cons_append]
      simp only [parseStrBodyF]
      rw [if_neg h1, if_neg h2, if_neg h3]
      rw [ih f rest (fun e he => hgood e (List.mem_cons_of_mem _ he)) (by simp at hf; omega)]
      rfl

lemma parseVal_string (f : Nat) (T rest : List Char) (hT : ∀ c ∈ T, goodChar c = true) :
    parseVal (f + 1) ('"' :: (T ++ '"' :: rest)) = some (JVal.str (String.mk T), rest) := by
  have hb : parseVal (f + 1) ('"' :: (T ++ '"' :: rest)) =
      (match parseStrBodyF (T ++ '"' :: rest).length (T ++ '"' :: rest) with
      | some (s, r') => some (JVal.str (String.mk s), r')
      | none => none) := by
    rw [parseVal, skipWs_cons_false (by decide)]
    rfl
  rw [hb, parseStrBody_content T _ rest hT (by simp)]

lemma string_mk_data (s : String) : String.mk s.data = s := rfl

lemma parseMembers_item (f : Nat) (hf : 3 ≤ f) (i : Card) (rest : List Char)
    (hgood : GoodCard i) :
    parseMembers f
      ('"' :: 't' :: 'e' :: 'r' :: 'm' :: '"' :: ':' :: '"' ::
        (i.term.data ++ ('"' :: ',' :: '"' :: 'd' :: 'e' :: 'f' :: 'i' :: 'n' :: 'i' ::
          't' :: 'i' :: 'o' :: 'n' :: '"' :: ':' :: '"' ::
            (i.definition.data ++ ('"' :: rbrace :: rest)))))
      = some ([("term", JVal.str i.term), ("definition", JVal.str i.definition)], rest) := by
  obtain ⟨f3, rfl⟩ : ∃ g, f = g + 3 := ⟨f - 3, by omega⟩
  have hTg : ∀ c ∈ i.term.data, goodChar c = true := hgood.1.2.2.2
  have hDg : ∀ c ∈ i.definition.data, goodChar c = true := hgood.2.2.2.2
  have hA : parseStrBodyF
      ('t' :: 'e' :: 'r' :: 'm' :: '"' :: ':' :: '"' ::
        (i.term.data ++ ('"' :: ',' :: '"' :: 'd' :: 'e' :: 'f' :: 'i' :: 'n' :: 'i' ::
          't' :: 'i' :: 'o' :: 'n' :: '"' :: ':' :: '"' ::
            (i.definition.data ++ ('"' :: rbrace :: rest))))).length
      ('t' :: 'e' :: 'r' :: 'm' :: '"' :: ':' :: '"' ::
        (i.term.data ++ ('"' :: ',' :: '"' :: 'd' :: 'e' :: 'f' :: 'i' :: 'n' :: 'i' ::
          't' :: 'i' :: 'o' :: 'n' :: '"' :: ':' :: '"' ::
            (i.definition.data ++ ('"' :: rbrace :: rest)))))
      = some (['t', 'e', 'r', 'm'],
          ':' :: '"' ::
            (i.term.data ++ ('"' :: ',' :: '"' :: 'd' :: 'e' :: 'f' :: 'i' :: 'n' :: 'i' ::
              't' :: 'i' :: 'o' :: 'n' :: '"' :: ':' :: '"' ::
                (i.definition.data ++ ('"' :: rbrace :: rest))))) :=
    parseStrBody_content ['t', 'e', 'r', 'm'] _ _ (by decide) (by simp)
  have hB : parseStrBodyF
      ('d' :: 'e' :: 'f' :: 'i' :: 'n' :: 'i' :: 't' :: 'i' :: 'o' :: 'n' :: '"' :: ':' :: '"' ::
        (i.definition.data ++ ('"' :: rbrace :: rest))).length
      ('d' :: 'e' :: 'f' :: 'i' :: 'n' :: 'i' :: 't' :: 'i' :: 'o' :: 'n' :: '"' :: ':' :: '"' ::
        (i.definition.data ++ ('"' :: rbrace :: rest)))
      = some (['d', 'e', 'f', 'i', 'n', 'i', 't', 'i', 'o', 'n'],
          ':' :: '"' :: (i.definition.data ++ ('"' :: rbrace :: rest))) :=
    parseStrBody_content ['d', 'e', 'f', 'i', 'n', 'i', 't', 'i', 'o', 'n'] _ _
      (by decide) (by simp)
  have hV1 : parseVal (f3 + 1 + 1)
      ('"' :: (i.term.data ++ ('"' :: (',' :: '"' :: 'd' :: 'e' :: 'f' :: 'i' :: 'n' :: 'i' ::
        't' :: 'i' :: 'o' :: 'n' :: '"' :: ':' :: '"' ::
          (i.definition.data ++ ('"' :: rbrace :: rest))))))
      = some (JVal.str i.term,
          ',' :: '"' :: 'd' :: 'e' :: 'f' :: 'i' :: 'n' :: 'i' :: 't' :: 'i' :: 'o' :: 'n' ::
            '"' :: ':' :: '"' :: (i.definition.data ++ ('"' :: rbrace :: rest))) := by
    rw [parseVal_string (f3 + 1) i.term.data _ hTg, string_mk_data]
  have hV2 : parseVal (f3 + 1)
      ('"' :: (i.definition.data ++ ('"' :: (rbrace :: rest))))
      = some (JVal.str i.definition, rbrace :: rest) := by
    obtain ⟨g, rfl⟩ : ∃ g, f3 = g := ⟨f3, rfl⟩
    rw [show f3 + 1 = f3 + 1 from rfl, parseVal_string f3 i.definition.data _ hDg,
      string_mk_data]
  rw [show f3 + 3 = f3 + 2 + 1 from rfl, parseMembers, skipWs_cons_false (by decide)]
  dsimp only
  rw [if_pos rfl, hA]
  dsimp only
  rw [skipWs_cons_false (by decide)]
  dsimp only
  rw [if_pos rfl]
  rw [show f3 + 2 = f3 + 1 + 1 from rfl, hV1]
  dsimp only
  rw [skipWs_cons_false (by decide)]
  dsimp only
  rw [if_pos rfl]
  rw [show f3 + 1 + 1 = f3 + 1 + 1 from rfl, parseMembers, skipWs_cons_false (by decide)]
  dsimp only
  rw [if_pos rfl, hB]
  dsimp only
  rw [skipWs_cons_false (by decide)]
  dsimp only
  rw [if_pos rfl, hV2]
  dsimp only
  rw [skipWs_cons_false (by decide)]
  dsimp only
  rw [if_neg (by decide), if_pos rfl]

lemma parseVal_serItem (f : Nat) (hf : 4 ≤ f) (i : Card) (rest : List Char)
    (hgood : GoodCard i) :
    parseVal f (serItem i ++ rest) = some (jObj i, rest) := by
  obtain ⟨g, rfl⟩ : ∃ g, f = g + 4 := ⟨f - 4, by omega⟩
  have hser : serItem i ++ rest =
      lbrace :: ('"' :: 't' :: 'e' :: 'r' :: 'm' :: '"' :: ':' :: '"' ::
        (i.term.data ++ ('"' :: ',' :: '"' :: 'd' :: 'e' :: 'f' :: 'i' :: 'n' :: 'i' ::
          't' :: 'i' :: 'o' :: 'n' :: '"' :: ':' :: '"' ::
            (i.definition.data ++ ('"' :: rbrace :: rest))))) := by
    simp [serItem, itemPre, itemMid, itemSuf]
  rw [hser, show g + 4 = g + 3 + 1 from rfl, parseVal_lbrace]
  rw [skipWs_cons_false (by decide)]
  dsimp only
  rw [if_neg (by decide)]
  rw [parseMembers_item (g + 3) (by omega) i rest hgood]
  rfl

lemma serBody_length_ge : ∀ (items : List Card), items.length ≤ (serBody items).length := by
  intro items
  induction items with
  | nil => simp
  | cons i restI ih =>
    cases restI with
    | nil => simp [serBody, serItem, itemPre, itemMid, itemSuf]
    | cons j restJ =>
      rw [show serBody (i :: j :: restJ) = serItem i ++ ',' :: serBody (j :: restJ) from rfl]
      have h9 : 1 ≤ (serItem i).length := by
        simp [serItem, itemPre]
      simp only [List.length_append, List.length_cons] at ih ⊢
      omega

lemma parseElems_serBody : ∀ (items : List Card) (f : Nat) (rest : List Char),
    items ≠ [] → (∀ i ∈ items, GoodCard i) → 2 * items.length + 4 ≤ f →
    parseElems f (serBody items ++ ']' :: rest) = some (items.map jObj, rest) := by
  intro items
  induction items with
  | nil => intro f rest h; exact absurd rfl h
  | cons i restI ih =>
    intro f rest _ hgood hf
    obtain ⟨g, rfl⟩ : ∃ g, f = g + 1 := ⟨f - 1, by omega⟩
    have hgi : GoodCard i := hgood i (List.mem_cons_self _ _)
    cases restI with
    | nil =>
      rw [show serBody [i] ++ ']' :: rest = serItem i ++ (']' :: rest) from rfl]
      rw [parseElems, parseVal_serItem g (by simp at hf; omega) i (']' :: rest) hgi]
      dsimp only
      rw [skipWs_cons_false (by decide)]
      dsimp only
      rw [if_neg (by decide), if_pos rfl]
      rfl
    | cons j restJ =>
      rw [show serBody (i :: j :: restJ) ++ ']' :: rest
          = serItem i ++ (',' :: (serBody (j :: restJ) ++ ']' :: rest)) by
        rw [show serBody (i :: j :: restJ) = serItem i ++ ',' :: serBody (j :: restJ) from rfl]
        simp]
      rw [parseElems, parseVal_serItem g (by simp at hf; omega) i _ hgi]
      dsimp only
      rw [skipWs_cons_false (by decide)]
      dsimp only
      rw [if_pos rfl]
      rw [ih g rest (by simp) (fun k hk => hgood k (List.mem_cons_of_mem _ hk))
        (by simp at hf ⊢; omega)]
      rfl

lemma jsParseL_serItems (items : List Card) (hne : items ≠ [])
    (hgood : ∀ i ∈ items, GoodCard i) :
    jsParseL (serItems items) = some (JVal.arr (items.map jObj)) := by
  rw [jsParseL]
  obtain ⟨tl, htl⟩ : ∃ tl, serBody items = lbrace :: tl := by
    cases items with
    | nil => exact absurd rfl hne
    | cons i restI => exact serBody_head i restI
  have hlen : items.length + 2 ≤ (serItems items).length := by
    have := serBody_length_ge items
    simp [serItems]
    omega
  obtain ⟨g, hg⟩ : ∃ g, 2 * (serItems items).length + 2 = g + 1 :=
    ⟨2 * (serItems items).length + 1, rfl⟩
  rw [hg]
  have hv : parseVal (g + 1) (serItems items) = some (JVal.arr (items.map jObj), []) := by
    rw [serItems, parseVal, skipWs_cons_false (by decide)]
    dsimp only
    rw [if_neg (by decide), if_pos rfl]
    rw [show serBody items ++ [']'] = serBody items ++ ']' :: ([] : List Char) from rfl]
    rw [htl, List.cons_append]
    rw [@skipWs_cons_false lbrace (tl ++ ']' :: []) (by decide)]
    dsimp only
    rw [if_neg (by decide)]
    rw [← List.cons_append, ← htl]
    rw [parseElems_serBody items g [] hne hgood (by omega)]
  rw [hv]
  rfl

lemma isValidCard_jObj (i : Card) (h : GoodCard i) : isValidCard (jObj i) = true := by
  rw [show isValidCard (jObj i)
      = (decide ((jsTrimL i.term.data) ≠ []) && decide ((jsTrimL i.definition.data) ≠ []))
    from rfl]
  rw [h.1.2.2.1, h.2.2.2.1]
  simp [h.1.1, h.2.1]

lemma toCard_jObj (i : Card) : toCard (jObj i) = i := rfl

lemma sanitizeField_good (maxLen : Nat) (s : String) (h : GoodField s maxLen) :
    sanitizeField maxLen s = s := by
  obtain ⟨hne, hlen, htrim, hgood⟩ := h
  rw [sanitizeField, htrim]
  rw [List.take_of_length_le hlen]
  have hfe : (s.data.filter (fun c => !(c = '<' || c = '>'))) = s.data := by
    rw [List.filter_eq_self]
    intro c hc
    have hp := goodChar_props (hgood c hc)
    have h1 : ¬(c = '<') := hp.2.2.2.2.2.2.2.2.2.1
    have h2 : ¬(c = '>') := hp.2.2.2.2.2.2.2.2.2.2.1
    simp [h1, h2]
  rw [hfe]

lemma sanitizeCard_good (i : Card) (h : GoodCard i) : sanitizeCard i = i := by
  rw [sanitizeCard, sanitizeField_good 500 i.term h.1,
    sanitizeField_good 2000 i.definition h.2]

lemma filter_isValid_map_jObj (items : List Card) (hgood : ∀ i ∈ items, GoodCard i) :
    (items.map jObj).filter isValidCard = items.map jObj := by
  rw [List.filter_eq_self]
  intro v hv
  simp only [List.mem_map] at hv
  obtain ⟨i, hi, rfl⟩ := hv
  exact isValidCard_jObj i (hgood i hi)

lemma mapped_take_sanitize (items : List Card) (count : Nat)
    (hgood : ∀ i ∈ items, GoodCard i) :
    (((items.map jObj).take count).map (fun v => sanitizeCard (toCard v)))
      = items.take count := by
  rw [← List.map_take, List.map_map]
  have h1 : ∀ i ∈ items.take count,
      ((fun v => sanitizeCard (toCard v)) ∘ jObj) i = id i := by
    intro i hi
    have hg := hgood i (List.take_subset _ _ hi)
    simp only [Function.comp_apply, id_eq]
    rw [toCard_jObj, sanitizeCard_good i hg]
  rw [List.map_congr_left h1, List.map_id]

lemma coerce1_serItems (items : List Card) (hne : items ≠ [])
    (hgood : ∀ i ∈ items, GoodCard i) :
    coerce1 (serializeItems items) = Except.ok (items.map jObj) := by
  have hp : jsParseL (cleanJson1 (serializeItems items))
      = some (JVal.arr (items.map jObj)) := by
    rw [cleanJson1_serItems items hgood, jsParseL_serItems items hne hgood]
  rw [coerce1]
  rw [hp]

lemma coerce2_serItems (items : List Card) (hne : items ≠ [])
    (hgood : ∀ i ∈ items, GoodCard i) :
    coerce2 (serializeItems items) = Except.ok (items.map jObj) := by
  have hp : jsParseL (cleanJson2 (serializeItems items))
      = some (JVal.arr (items.map jObj)) := by
    rw [cleanJson2_serItems items hgood, jsParseL_serItems items hne hgood]
  rw [coerce2]
  rw [hp]

lemma pipeline1_serItems (items : List Card) (count : Nat) (hne : items ≠ [])
    (hgood : ∀ i ∈ items, GoodCard i) :
    pipeline1 (serializeItems items) count = Except.ok (items.take count) := by
  rw [pipeline1, coerce1_serItems items hne hgood]
  dsimp only
  rw [filter_isValid_map_jObj items hgood]
  rw [if_neg (by
    cases items with
    | nil => exact absurd rfl hne
    | cons a tl => simp)]
  rw [mapped_take_sanitize items count hgood]

lemma backend2Handler_serItems (items : List Card) (count : Nat) (hne : items ≠ [])
    (hgood : ∀ i ∈ items, GoodCard i) :
    backend2Handler (serializeItems items) RegenResult.fail count "intermediate"
      = (Except.ok (items.take count), 0) := by
  rw [backend2Handler, coerce2_serItems items hne hgood]
  dsimp only
  rw [filter_isValid_map_jObj items hgood]
  rw [if_neg (by
    cases items with
    | nil => exact absurd rfl hne
    | cons a tl => simp)]
  have hnr : (decide (("intermediate" : String) = "expert")
      && !(isExpertContent ((items.map jObj).map toCard))) = false := by
    rw [show (decide (("intermediate" : String) = "expert")) = false from rfl, Bool.false_and]
  simp only [hnr, Bool.false_eq_true, if_false]
  rw [mapped_take_sanitize items count hgood]

/-- Claim C2, counterexample: the raw input `[{"term":"A","definition":"B,}"}]`
is already valid JSON whose single item is well-formed in the claim's sense
(non-empty fields within the limits, no angle brackets), yet the pipeline does
not return it unchanged: the trailing-comma repair deletes the comma inside
the definition value, so the returned definition is `B}` instead of `B,}`. -/
theorem claim_C2_counterexample :
    jsParse rawCommaBrace = some (JVal.arr [jObj (Card.mk "A" "B,\x7d")])
    ∧ isValidCard (jObj (Card.mk "A" "B,\x7d")) = true
    ∧ pipeline1 rawCommaBrace 5 = Except.ok [Card.mk "A" "B\x7d"]
    ∧ Card.mk "A" "B\x7d" ≠ Card.mk "A" "B,\x7d" :=
  ⟨rfl, rfl, rfl, by decide⟩

/-- Claim C2, amended: for every non-empty list of well-formed items whose
field characters additionally avoid the repair-sensitive characters (quotes,
backslash, comma, colon, braces, brackets, angle brackets, control ranges) and
whose fields are fixed by trimming, the first backend copy's pipeline on the
canonical JSON serialization returns exactly those items truncated to the
first count, and the second copy's handler does the same with zero
regeneration calls at a non-expert level. -/
theorem claim_C2_amended_pass_through (items : List Card) (count : Nat)
    (hne : items ≠ []) (hgood : ∀ i ∈ items, GoodCard i) :
    pipeline1 (serializeItems items) count = Except.ok (items.take count)
    ∧ backend2Handler (serializeItems items) RegenResult.fail count "intermediate"
        = (Except.ok (items.take count), 0) :=
  ⟨pipeline1_serItems items count hne hgood,
   backend2Handler_serItems items count hne hgood⟩

/-- Witness for the amended C2 theorem at a concrete one-item list. -/
theorem claim_C2_amended_pass_through_witness :
    pipeline1 (serializeItems [Card.mk "A" "B"]) 5
        = Except.ok ([Card.mk "A" "B"].take 5)
    ∧ backend2Handler (serializeItems [Card.mk "A" "B"]) RegenResult.fail 5 "intermediate"
        = (Except.ok ([Card.mk "A" "B"].take 5), 0) :=
  claim_C2_amended_pass_through [Card.mk "A" "B"] 5 (by decide)
    (by
      intro i hi
      simp only [List.mem_singleton] at hi
      subst hi
      refine ⟨⟨?_, ?_, ?_, ?_⟩, ?_, ?_, ?_, ?_⟩ <;> decide)
